import Mathlib

/-!
# NFS volume driver: mount lifecycle (`netshare/drivers/nfs.go`)

A shallow embedding of `nfsDriver.Mount`, `nfsDriver.Unmount`, `nfsDriver.fixSource`
and `nfsDriver.mountVolume`.

* The mount registry (`MountManager`) is not part of `nfs.go`; its operations are
  modelled from section 4.1 of the specification.
* The host (`run`, `createDest`, `os.RemoveAll`) is an arbitrary deterministic
  function of the history of host operations; every host operation and its
  outcome is appended to a trace.
* Go maps are finite partial functions; a `nil` map is `none`.
-/

namespace Netshare

/-! ## Constants of `nfs.go` -/

/-- The constant `NfsOptions` (nfs.go line 13). -/
def NfsOptions : String := "nfsopts"

/-- The constant `DefaultNfsV3` (nfs.go line 14). -/
def DefaultNfsV3 : String := "port=2049,nolock,proto=tcp"

/-! ## Go maps -/

/-- A non-nil Go `map[string]string`. -/
abbrev StrMap := String → Option String

/-- A Go `map[string]string` value; `none` is the `nil` map. -/
abbrev GoMap := Option StrMap

/-- The literal `map[string]string{}` and `make(map[string]string)`. -/
def emptyMap : StrMap := fun _ => none

/-- The read `m[k]` with the comma-ok form; reading a `nil` map finds nothing. -/
def GoMap.lookup (m : GoMap) (k : String) : Option String :=
  match m with
  | none => none
  | some f => f k

/-- The write `m[k] = v` on a non-nil map. -/
def StrMap.set (f : StrMap) (k v : String) : StrMap :=
  fun k' => if k' = k then some v else f k'

/-! ## Data model -/

/-- Mount Record of the registry (specification section 3): `mountpoint`,
`options` (the field `opts` that nfs.go lines 60-70 access) and `refcount`. -/
structure MountRecord where
  mountpoint : String
  opts : GoMap
  refcount : Nat

/-- The field `MountManager.mounts`. nfs.go line 61 assigns to
`n.mountm.mounts[resolvedName].opts`, which Go only accepts when the map's
elements are pointers to records; a name without a record therefore reads as
the nil pointer, here `none`. -/
abbrev Registry := String → Option MountRecord

/-- The map write `mounts[name] = r` (and `delete(mounts, name)` for `none`). -/
def Registry.put (m : Registry) (name : String) (r : Option MountRecord) : Registry :=
  fun k => if k = name then r else m k

/-- Declarations that nfs.go uses and that live in other files of the package or
in the Go library: the option keys `ShareOpt` and `CreateOpt`, `resolveName`,
`mountpoint`, `addShareColon`, `filepath.Join`, the string-to-bool reading used
by `GetOptionAsBool`, and whether the log level is `DebugLevel`. They are
parameters of the development. -/
structure Env where
  ShareOpt : String
  CreateOpt : String
  resolveName : String → String × GoMap
  mountpoint : String → String → String
  addShareColon : String → String
  pathJoin : String → String → String
  parseBool : String → Bool
  debug : Bool

/-- The struct `nfsDriver` (nfs.go lines 17-24); `volumeDriver` contributes
`root`, the registry is threaded through `State`. -/
structure nfsDriver where
  root : String
  version : Int
  nfsopts : StrMap
  share : String
  create : String

/-- The constructor `NewNFSDriver` (nfs.go lines 30-43). -/
def NewNFSDriver (root : String) (version : Int) (nfsopts share create : String) : nfsDriver :=
  { root := root
    version := version
    nfsopts := if nfsopts ≠ "" then emptyMap.set NfsOptions nfsopts else emptyMap
    share := share
    create := create }

/-! ## The host -/

/-- The operations nfs.go performs on the host. -/
inductive HostOp where
  /-- The call `run("grep -c <hostdir> /proc/mounts")`, line 88. -/
  | grepMounts (hostdir : String)
  /-- The call `createDest(dir)`, lines 101 and 122. -/
  | createDest (dir : String)
  /-- The call `run(cmd)` that ends `mountVolume`, line 210. -/
  | mountCmd (cmd source dest : String)
  /-- The call `run("umount <hostdir>")`, line 153. -/
  | umount (hostdir : String)
  /-- The call `run("ls -1 <hostdir> | grep .")`, line 161. -/
  | lsGrep (hostdir : String)
  /-- The call `os.RemoveAll(hostdir)`, line 164. -/
  | removeAll (hostdir : String)
  deriving DecidableEq, Repr

/-- The shell text handed to `run`, for the operations that go through `run`. -/
def HostOp.command : HostOp → Option String
  | .grepMounts hostdir => some ("grep -c " ++ hostdir ++ " /proc/mounts")
  | .createDest _ => none
  | .mountCmd cmd _ _ => some cmd
  | .umount hostdir => some ("umount " ++ hostdir)
  | .lsGrep hostdir => some ("ls -1 " ++ hostdir ++ " | grep .")
  | .removeAll _ => none

/-- Is the operation the host mount operation? -/
def HostOp.isMount : HostOp → Bool
  | .mountCmd _ _ _ => true
  | _ => false

/-- Is the operation the host unmount operation? -/
def HostOp.isUmount : HostOp → Bool
  | .umount _ => true
  | _ => false

/-- Is the operation a directory creation? -/
def HostOp.isCreateDest : HostOp → Bool
  | .createDest _ => true
  | _ => false

/-- Host operations performed so far, each with its outcome: `true` when the
returned `err` is `nil`. -/
abbrev Trace := List (HostOp × Bool)

/-- A host: the outcome of an operation given everything performed before. -/
abbrev Host := Trace → HostOp → Bool

/-- Registry and host history. -/
structure State where
  mounts : Registry
  trace : Trace

/-- Perform one host operation: ask the host and record operation and outcome. -/
def hostCall (h : Host) (s : State) (op : HostOp) : Bool × State :=
  (h s.trace op, { s with trace := s.trace ++ [(op, h s.trace op)] })

/-- How a call ends: a value with a nil error, the error of a failed host
operation, or a run-time panic (nil pointer dereference). -/
inductive Outcome (α : Type) where
  | ok (value : α)
  | error (failed : HostOp)
  | nilDeref
  deriving DecidableEq, Repr

/-! ## Mount Registry (specification section 4.1) -/

/-- Modelled from the spec: `MountManager.HasMount` is missing from the sources;
"record exists". -/
def HasMount (m : Registry) (name : String) : Bool :=
  (m name).isSome

/-- Modelled from the spec: `MountManager.Create` is missing from the sources;
"inserts a new record with refcount 0; fails (or is a no-op) if already
present". -/
def Create (m : Registry) (name hostdir : String) (opts : GoMap) : Registry :=
  match m name with
  | some _ => m
  | none => m.put name (some { mountpoint := hostdir, opts := opts, refcount := 0 })

/-- Modelled from the spec: `MountManager.Increment` is missing from the
sources; "raises refcount by one". Nothing is said for a name without a record
(nfs.go calls it only behind `HasMount`); the registry is then left as it is. -/
def Increment (m : Registry) (name : String) : Registry :=
  match m name with
  | some r => m.put name (some { r with refcount := r.refcount + 1 })
  | none => m

/-- Modelled from the spec: `MountManager.Add` is missing from the sources;
"raises refcount by one; Add also fixes the stored mountpoint if it differs".
Nothing is said for a name without a record (nfs.go calls it only after
`Create`); the registry is then left as it is. -/
def Add (m : Registry) (name hostdir : String) : Registry :=
  match m name with
  | some r => m.put name (some { r with mountpoint := hostdir, refcount := r.refcount + 1 })
  | none => m

/-- Modelled from the spec: `MountManager.Decrement` is missing from the
sources; "lowers refcount by one, floored at zero; never negative". -/
def Decrement (m : Registry) (name : String) : Registry :=
  match m name with
  | some r => m.put name (some { r with refcount := r.refcount - 1 })
  | none => m

/-- Modelled from the spec: `MountManager.Count` is missing from the sources;
"current refcount, 0 if absent". -/
def Count (m : Registry) (name : String) : Nat :=
  match m name with
  | some r => r.refcount
  | none => 0

/-- Modelled from the spec: `MountManager.HasOption` is missing from the
sources; "read from the record's option map; empty/false if absent". -/
def HasOption (m : Registry) (name key : String) : Bool :=
  match m name with
  | some r => (r.opts.lookup key).isSome
  | none => false

/-- Modelled from the spec: `MountManager.GetOption` is missing from the
sources; "read from the record's option map; empty/false if absent". -/
def GetOption (m : Registry) (name key : String) : String :=
  match m name with
  | some r => (r.opts.lookup key).getD ""
  | none => ""

/-- Modelled from the spec: `MountManager.GetOptionAsBool` is missing from the
sources; "read from the record's option map; empty/false if absent". -/
def GetOptionAsBool (E : Env) (m : Registry) (name key : String) : Bool :=
  match m name with
  | some r =>
    match r.opts.lookup key with
    | some v => E.parseBool v
    | none => false
  | none => false

/-- Modelled from the spec: `MountManager.GetOptions` is missing from the
sources; "full option map (empty map if absent), never nil". -/
def GetOptions (m : Registry) (name : String) : StrMap :=
  match m name with
  | some r => r.opts.getD emptyMap
  | none => emptyMap

/-- Modelled from the spec: `MountManager.DeleteIfNotManaged` is missing from the
sources; "removes the record entirely, but only if the record was not created
with explicit share + create policy; otherwise the record is retained with
refcount at its current value". The record carries no other trace of how it was
created than its options, so the policy is read off them, as nfs.go line 119
does. -/
def DeleteIfNotManaged (E : Env) (m : Registry) (name : String) : Registry :=
  if GetOption m name E.ShareOpt ≠ "" ∧ GetOptionAsBool E m name E.CreateOpt = true then m
  else m.put name none

/-- Modelled from the spec: the helper `merge` is missing from the sources;
"record options merged over driver-wide default options, record options win on
key conflict". -/
def merge (src src2 : StrMap) : StrMap :=
  fun k =>
    match src k with
    | some v => some v
    | none => src2 k

/-! ## The driver (`nfs.go`) -/

/-- The method `nfsDriver.fixSource` (nfs.go lines 172-177). -/
def fixSource (E : Env) (m : Registry) (name : String) : String :=
  if HasOption m name E.ShareOpt then E.addShareColon (GetOption m name E.ShareOpt)
  else E.addShareColon name

/-- Lines 54-75 of `Mount`: the registry after the defaults have been stored on
the record, and the value of `source`. The result is `none` when line 60 reads
`.opts` through the nil pointer of a name without a record. -/
def defaultSource (E : Env) (n : nfsDriver) (m : Registry) (resolvedName : String) :
    Option (Registry × String) :=
  if GetOption m resolvedName E.ShareOpt = "" ∧
      GetOptionAsBool E m resolvedName E.CreateOpt = false then
    match m resolvedName with
    | none => none
    | some r =>
      let o0 : StrMap := match r.opts with
        | none => emptyMap
        | some o => o
      let o1 : StrMap := if n.share ≠ "" then o0.set E.ShareOpt n.share else o0
      let m1 : Registry := m.put resolvedName (some { r with opts := some o1 })
      let source : String := if n.share ≠ "" then fixSource E m1 n.share else ""
      let o2 : StrMap := if n.create ≠ "" then o1.set E.CreateOpt n.create else o1
      some (m.put resolvedName (some { r with opts := some o2 }), source)
  else
    some (m, fixSource E m resolvedName)

/-- Lines 77-83 of `Mount`: an inline share option replaces `source`. -/
def inlineSource (E : Env) (m : Registry) (resOpts : GoMap) (source : String) : String :=
  match resOpts with
  | none => source
  | some o =>
    match o E.ShareOpt with
    | some share => fixSource E m share
    | none => source

/-- The command line that `mountVolume` builds (nfs.go lines 180-208). -/
def mountVolumeCmd (E : Env) (n : nfsDriver) (m : Registry)
    (name source dest : String) (version : Int) : String :=
  let options := merge (GetOptions m name) n.nfsopts
  let opts : String := match options NfsOptions with
    | some val => val
    | none => ""
  let mountCmd : String := if E.debug then "mount" ++ " -v" else "mount"
  if version = 3 then
    let opts3 : String := if opts = "" then DefaultNfsV3 else opts
    mountCmd ++ " -t nfs -o " ++ opts3 ++ " " ++ source ++ " " ++ dest
  else
    if opts ≠ "" then mountCmd ++ " -t nfs4 -o " ++ opts ++ " " ++ source ++ " " ++ dest
    else mountCmd ++ " -t nfs4 " ++ source ++ " " ++ dest

/-- The method `nfsDriver.mountVolume` (nfs.go lines 179-211). -/
def mountVolume (E : Env) (h : Host) (n : nfsDriver) (s : State)
    (name source dest : String) (version : Int) : Bool × State :=
  hostCall h s (.mountCmd (mountVolumeCmd E n s.mounts name source dest version) source dest)

/-- Lines 119-129 of `Mount`: the sub-directory of a share with create policy. -/
def mountSubdir (E : Env) (h : Host) (s : State) (resolvedName hostdir : String) :
    Outcome String × State :=
  if GetOption s.mounts resolvedName E.ShareOpt ≠ "" ∧
      GetOptionAsBool E s.mounts resolvedName E.CreateOpt = true then
    let datavol := E.pathJoin hostdir resolvedName
    let r := hostCall h s (.createDest (E.pathJoin hostdir resolvedName))
    if r.1 then (.ok datavol, r.2)
    else (.error (.createDest (E.pathJoin hostdir resolvedName)),
          { r.2 with mounts := Decrement r.2.mounts resolvedName })
  else (.ok hostdir, s)

/-- Lines 100-129 of `Mount`: create the mountpoint, register the caller, mount. -/
def mountFresh (E : Env) (h : Host) (n : nfsDriver) (s : State)
    (resolvedName : String) (resOpts : GoMap) (source hostdir : String) :
    Outcome String × State :=
  let r := hostCall h s (.createDest hostdir)
  if r.1 then
    let m1 : Registry :=
      if HasMount r.2.mounts resolvedName = false then Create r.2.mounts resolvedName hostdir resOpts
      else r.2.mounts
    let m2 : Registry := Add m1 resolvedName hostdir
    let v := mountVolume E h n { r.2 with mounts := m2 } resolvedName source hostdir n.version
    if v.1 then mountSubdir E h v.2 resolvedName hostdir
    else (.error (.mountCmd (mountVolumeCmd E n m2 resolvedName source hostdir n.version)
            source hostdir),
          { v.2 with mounts := Decrement v.2.mounts resolvedName })
  else
    (.error (.createDest hostdir),
     if Count r.2.mounts resolvedName > 0 then
       { r.2 with mounts := Decrement r.2.mounts resolvedName }
     else r.2)

/-- The method `nfsDriver.Mount` (nfs.go lines 45-130); `name` is `r.Name`. -/
def Mount (E : Env) (h : Host) (n : nfsDriver) (s : State) (name : String) :
    Outcome String × State :=
  let resolvedName := (E.resolveName name).1
  let resOpts := (E.resolveName name).2
  let hostdir := E.mountpoint n.root resolvedName
  match defaultSource E n s.mounts resolvedName with
  | none => (.nilDeref, s)
  | some (m0, source0) =>
    let source := inlineSource E m0 resOpts source0
    if HasMount m0 resolvedName then
      let r := hostCall h { s with mounts := Increment m0 resolvedName } (.grepMounts hostdir)
      if r.1 then (.ok hostdir, r.2)
      else
        let s3 : State :=
          if Count r.2.mounts resolvedName > 0 then
            { r.2 with mounts := Decrement r.2.mounts resolvedName }
          else r.2
        mountFresh E h n s3 resolvedName resOpts source hostdir
    else
      mountFresh E h n { s with mounts := m0 } resolvedName resOpts source hostdir

/-- The method `nfsDriver.Unmount` (nfs.go lines 132-170); `name` is `r.Name`. -/
def Unmount (E : Env) (h : Host) (n : nfsDriver) (s : State) (name : String) :
    Outcome Unit × State :=
  let resolvedName := (E.resolveName name).1
  let hostdir := E.mountpoint n.root resolvedName
  if HasMount s.mounts resolvedName = true ∧ Count s.mounts resolvedName > 1 then
    (.ok (), { s with mounts := Decrement s.mounts resolvedName })
  else
    let s1 : State :=
      if HasMount s.mounts resolvedName then
        { s with mounts := Decrement s.mounts resolvedName }
      else s
    let u := hostCall h s1 (.umount hostdir)
    if u.1 then
      let s2 : State := { u.2 with mounts := DeleteIfNotManaged E u.2.mounts resolvedName }
      let l := hostCall h s2 (.lsGrep hostdir)
      if l.1 then (.ok (), l.2)
      else
        let d := hostCall h l.2 (.removeAll hostdir)
        if d.1 then (.ok (), d.2)
        else (.error (.removeAll hostdir), d.2)
    else (.error (.umount hostdir), u.2)

/-! ## A sample configuration, for concrete runs -/

/-- A sample environment: keys "share" and "create", names without inline
options, mountpoint `root/name`, sources left as they are. -/
def sampleEnv : Env :=
  { ShareOpt := "share"
    CreateOpt := "create"
    resolveName := fun name => (name, none)
    mountpoint := fun root name => root ++ "/" ++ name
    addShareColon := fun share => share
    pathJoin := fun dir name => dir ++ "/" ++ name
    parseBool := fun v => v == "true"
    debug := false }

/-- A sample driver: NFSv4 under `/mnt` with default share `host:/export`, no
default create option and no default mount options. -/
def sampleDriver : nfsDriver :=
  NewNFSDriver "/mnt" 4 "" "host:/export" ""

/-- The registry with no record at all. -/
def emptyRegistry : Registry := fun _ => none

/-- A registry whose only record is `vol1`, mounted at `/mnt/vol1`, with the
given options and refcount. -/
def vol1Registry (opts : GoMap) (refcount : Nat) : Registry :=
  emptyRegistry.put "vol1" (some { mountpoint := "/mnt/vol1", opts := opts, refcount := refcount })

/-- The options of a volume created with share + create policy. -/
def shareCreateOpts : GoMap :=
  some ((emptyMap.set "share" "host:/export").set "create" "true")

/-- Was the last successful mount or unmount of `dir` in the history a mount? -/
def mountedIn (t : Trace) (dir : String) : Bool :=
  t.foldl (fun live e =>
    match e with
    | (.mountCmd _ _ dest, true) => if dest = dir then true else live
    | (.umount hostdir, true) => if hostdir = dir then false else live
    | _ => live) false

/-- A host on which every operation succeeds and whose mount table holds exactly
the mounts performed and not yet unmounted; directories are found empty. -/
def tableHost : Host := fun t op =>
  match op with
  | .grepMounts hostdir => mountedIn t hostdir
  | .lsGrep _ => false
  | _ => true

/-- A host on which every operation succeeds and every mountpoint is reported
as mounted. -/
def liveHost : Host := fun _ _ => true

/-- A host on which every operation fails: nothing is mounted, and no directory
can be created. -/
def deadHost : Host := fun _ _ => false

/-- A host on which nothing is mounted and only the given operation fails. -/
def failingHost (bad : HostOp) : Host := fun _ op =>
  match op with
  | .grepMounts _ => false
  | _ => decide (op ≠ bad)

/-- The state after `k` successive `Mount` calls for the same name. -/
def MountTimes (E : Env) (h : Host) (n : nfsDriver) (name : String) : Nat → State → State
  | 0, s => s
  | k + 1, s => MountTimes E h n name k (Mount E h n s name).2

/-- The state after `k` successive `Unmount` calls for the same name. -/
def UnmountTimes (E : Env) (h : Host) (n : nfsDriver) (name : String) : Nat → State → State
  | 0, s => s
  | k + 1, s => UnmountTimes E h n name k (Unmount E h n s name).2

/-- The state after `N` Mount calls followed by `N` Unmount calls for a name. -/
def MountUnmount (E : Env) (h : Host) (n : nfsDriver) (name : String) (N : Nat) (s : State) :
    State :=
  UnmountTimes E h n name N (MountTimes E h n name N s)

/-- Every host operation succeeds and the mount-table query for `dir` answers
exactly from the mounts and unmounts performed. (Whether a directory is found
empty is left open.) -/
def faithfulHost (h : Host) (dir : String) : Prop :=
  (∀ t, h t (.grepMounts dir) = mountedIn t dir) ∧
  (∀ t d, h t (.createDest d) = true) ∧
  (∀ t cmd source dest, h t (.mountCmd cmd source dest) = true) ∧
  (∀ t d, h t (.umount d) = true) ∧
  (∀ t d, h t (.removeAll d) = true)

/-! ## Vocabulary of the statements -/

/-- The host operations a call performed: what it appended to the history. -/
def opsSince (s s' : State) : Trace :=
  s'.trace.drop s.trace.length

/-- Does the record of the name carry the share + create policy (line 119)? -/
def subdirPolicy (E : Env) (m : Registry) (name : String) : Prop :=
  GetOption m name E.ShareOpt ≠ "" ∧ GetOptionAsBool E m name E.CreateOpt = true

instance (E : Env) (m : Registry) (name : String) : Decidable (subdirPolicy E m name) := by
  unfold subdirPolicy
  infer_instance

/-- The registry `Unmount` hands to the host unmount (lines 142-149 when the
refcount is not above 1): the record, if any, with its refcount lowered. -/
def afterDecrement (m : Registry) (name : String) : Registry :=
  if HasMount m name then Decrement m name else m

/-- Lines 182-186 of `mountVolume`: the option string `opts` read from the
merged options. -/
def resolvedOpts (n : nfsDriver) (m : Registry) (name : String) : String :=
  match merge (GetOptions m name) n.nfsopts NfsOptions with
  | some val => val
  | none => ""

/-- A sample environment with inline options: as `sampleEnv`, but the request
name `vol1?share=other` resolves to the canonical name `vol1` with the inline
option `share` set to `other`. -/
def inlineEnv : Env :=
  { sampleEnv with
    resolveName := fun name =>
      if name = "vol1?share=other" then ("vol1", some (emptyMap.set "share" "other"))
      else (name, none) }

/-- A registry with two records: `vol1` without options, and `other` whose share
option is `host:/export`; both at refcount 0. -/
def twoRegistry : Registry :=
  (vol1Registry none 0).put "other"
    (some { mountpoint := "/mnt/other"
            opts := some (emptyMap.set "share" "host:/export")
            refcount := 0 })

/-- A sample driver without a default share: NFSv4 under `/mnt`, no default
create option and no default mount options. -/
def plainDriver : nfsDriver :=
  NewNFSDriver "/mnt" 4 "" "" ""

/-- The options of a record that only carries mount options. -/
def nfsoptsOnly (value : String) : GoMap :=
  some (emptyMap.set NfsOptions value)

/-- The option string the record and the driver default stand for: the record's
own `nfsopts` value when the record's option map has that key, the driver-wide
default otherwise. -/
def recordOrDefault (m : Registry) (name default : String) : String :=
  if HasOption m name NfsOptions then GetOption m name NfsOptions else default

/-- What `ls -1 <dir> | grep .` finds in a directory with the given entries:
`ls` without `-a` leaves out the names that start with a dot, and `grep .`
succeeds when a non-empty line is left. -/
def lsGrepFinds (entries : List String) : Bool :=
  entries.any (fun e =>
    match e.data with
    | [] => false
    | '.' :: _ => false
    | _ => true)

/-- A host on which every operation succeeds and whose directories hold the
given entries: the listing of line 161 answers from them. -/
def dirHost (entries : List String) : Host := fun _ op =>
  match op with
  | .lsGrep _ => lsGrepFinds entries
  | _ => true

/-- The option map stored for a name, if the name has a record. -/
def optsOf (m : Registry) (name : String) : Option GoMap :=
  (m name).map (fun r => r.opts)

/-! ## Registry lemmas -/

theorem opsSince_of_trace {s s' : State} {l : Trace} (ht : s'.trace = s.trace ++ l) :
    opsSince s s' = l := by
  simp [opsSince, ht]

theorem opsSince_self (s : State) : opsSince s s = [] := by
  simp [opsSince]

theorem put_same (m : Registry) (name : String) (r : Option MountRecord) :
    m.put name r name = r := by
  simp [Registry.put]

theorem put_other (m : Registry) (name k : String) (r : Option MountRecord) (hk : k ≠ name) :
    m.put name r k = m k := by
  simp [Registry.put, hk]

theorem HasMount_of_some {m : Registry} {name : String} {r : MountRecord}
    (hr : m name = some r) : HasMount m name = true := by
  simp [HasMount, hr]

theorem Count_of_some {m : Registry} {name : String} {r : MountRecord}
    (hr : m name = some r) : Count m name = r.refcount := by
  simp [Count, hr]

theorem Increment_of_some {m : Registry} {name : String} {r : MountRecord}
    (hr : m name = some r) :
    Increment m name = m.put name (some { r with refcount := r.refcount + 1 }) := by
  simp [Increment, hr]

theorem Decrement_of_some {m : Registry} {name : String} {r : MountRecord}
    (hr : m name = some r) :
    Decrement m name = m.put name (some { r with refcount := r.refcount - 1 }) := by
  simp [Decrement, hr]

theorem Add_of_some {m : Registry} {name : String} {r : MountRecord} (hostdir : String)
    (hr : m name = some r) :
    Add m name hostdir =
      m.put name (some { r with mountpoint := hostdir, refcount := r.refcount + 1 }) := by
  simp [Add, hr]

/-- Lines 54-75 on a name with a record: no panic, and the record keeps its
mountpoint and refcount (only its options may change). -/
theorem defaultSource_of_some (E : Env) (n : nfsDriver) {m : Registry} {name : String}
    {r : MountRecord} (hr : m name = some r) :
    ∃ m0 source r0, defaultSource E n m name = some (m0, source) ∧ m0 name = some r0 ∧
      r0.refcount = r.refcount ∧ r0.mountpoint = r.mountpoint ∧
      ∀ k, k ≠ name → m0 k = m k := by
  unfold defaultSource
  split
  · simp only [hr]
    exact ⟨_, _, _, rfl, put_same _ _ _, rfl, rfl, fun k hk => put_other _ _ _ _ hk⟩
  · exact ⟨m, _, r, rfl, hr, rfl, rfl, fun _ _ => rfl⟩

/-- Lines 54-75 on a name without a record: line 58 holds and line 60 panics. -/
theorem defaultSource_of_none (E : Env) (n : nfsDriver) {m : Registry} {name : String}
    (hr : m name = none) : defaultSource E n m name = none := by
  simp [defaultSource, GetOption, GetOptionAsBool, hr]

/-! ## Step lemmas for `Mount` -/

theorem mountSubdir_plain (E : Env) (h : Host) (s : State) (name hostdir : String)
    (hp : ¬ subdirPolicy E s.mounts name) :
    mountSubdir E h s name hostdir = (.ok hostdir, s) := by
  unfold subdirPolicy at hp
  simp only [mountSubdir, if_neg hp]

theorem mountSubdir_created (E : Env) (h : Host) (s : State) (name hostdir : String)
    (hp : subdirPolicy E s.mounts name)
    (hc : h s.trace (.createDest (E.pathJoin hostdir name)) = true) :
    mountSubdir E h s name hostdir =
      (.ok (E.pathJoin hostdir name),
       { s with trace := s.trace ++ [(.createDest (E.pathJoin hostdir name), true)] }) := by
  unfold subdirPolicy at hp
  simp [mountSubdir, if_pos hp, hostCall, hc]

theorem mountSubdir_failed (E : Env) (h : Host) (s : State) (name hostdir : String)
    (hp : subdirPolicy E s.mounts name)
    (hc : h s.trace (.createDest (E.pathJoin hostdir name)) = false) :
    mountSubdir E h s name hostdir =
      (.error (.createDest (E.pathJoin hostdir name)),
       { mounts := Decrement s.mounts name
         trace := s.trace ++ [(.createDest (E.pathJoin hostdir name), false)] }) := by
  unfold subdirPolicy at hp
  simp [mountSubdir, if_pos hp, hostCall, hc]

/-- Lines 100-106 on a name with a record: a failed `createDest`. -/
theorem mountFresh_createDest_failed (E : Env) (h : Host) (n : nfsDriver) (s : State)
    (name : String) (resOpts : GoMap) (source hostdir : String)
    (hc : h s.trace (.createDest hostdir) = false) :
    mountFresh E h n s name resOpts source hostdir =
      (.error (.createDest hostdir),
       { mounts := if Count s.mounts name > 0 then Decrement s.mounts name else s.mounts
         trace := s.trace ++ [(.createDest hostdir, false)] }) := by
  by_cases hcnt : 0 < Count s.mounts name <;> simp [mountFresh, hostCall, hc, hcnt]

/-- Lines 100-117 on a name with a record: `createDest` succeeds, the host mount fails. -/
theorem mountFresh_mount_failed (E : Env) (h : Host) (n : nfsDriver) (s : State)
    (name : String) (resOpts : GoMap) (source hostdir : String) (r : MountRecord)
    (hr : s.mounts name = some r)
    (hc : h s.trace (.createDest hostdir) = true)
    (hm : h (s.trace ++ [(.createDest hostdir, true)])
      (.mountCmd (mountVolumeCmd E n (Add s.mounts name hostdir) name source hostdir n.version)
        source hostdir) = false) :
    mountFresh E h n s name resOpts source hostdir =
      (.error (.mountCmd
          (mountVolumeCmd E n (Add s.mounts name hostdir) name source hostdir n.version)
          source hostdir),
       { mounts := Decrement (Add s.mounts name hostdir) name
         trace := s.trace ++ [(.createDest hostdir, true),
           (.mountCmd
             (mountVolumeCmd E n (Add s.mounts name hostdir) name source hostdir n.version)
             source hostdir, false)] }) := by
  simp [mountFresh, mountVolume, hostCall, hc, hm, HasMount_of_some hr]

/-- Lines 100-129 on a name with a record: `createDest` and the host mount succeed. -/
theorem mountFresh_mounted (E : Env) (h : Host) (n : nfsDriver) (s : State)
    (name : String) (resOpts : GoMap) (source hostdir : String) (r : MountRecord)
    (hr : s.mounts name = some r)
    (hc : h s.trace (.createDest hostdir) = true)
    (hm : h (s.trace ++ [(.createDest hostdir, true)])
      (.mountCmd (mountVolumeCmd E n (Add s.mounts name hostdir) name source hostdir n.version)
        source hostdir) = true) :
    mountFresh E h n s name resOpts source hostdir =
      mountSubdir E h
        { mounts := Add s.mounts name hostdir
          trace := s.trace ++ [(.createDest hostdir, true),
            (.mountCmd
              (mountVolumeCmd E n (Add s.mounts name hostdir) name source hostdir n.version)
              source hostdir, true)] } name hostdir := by
  simp [mountFresh, mountVolume, hostCall, hc, hm, HasMount_of_some hr]

/-- Lines 85-98 on a name with a record whose mountpoint the host does not
report as mounted: the increment is undone and the call goes on to remount. -/
theorem Mount_stale (E : Env) (h : Host) (n : nfsDriver) (s : State) (name : String)
    (r : MountRecord) (hr : s.mounts (E.resolveName name).1 = some r)
    (hg : h s.trace (.grepMounts (E.mountpoint n.root (E.resolveName name).1)) = false) :
    ∃ m1 source r1, m1 (E.resolveName name).1 = some r1 ∧ r1.refcount = r.refcount ∧
      Mount E h n s name =
        mountFresh E h n
          { mounts := m1
            trace := s.trace ++
              [(.grepMounts (E.mountpoint n.root (E.resolveName name).1), false)] }
          (E.resolveName name).1 (E.resolveName name).2 source
          (E.mountpoint n.root (E.resolveName name).1) := by
  obtain ⟨m0, source, r0, hd, hm0, hc, -, -⟩ := defaultSource_of_some E n hr
  refine ⟨(m0.put (E.resolveName name).1 (some { r0 with refcount := r0.refcount + 1 })).put
      (E.resolveName name).1 (some { r0 with refcount := r0.refcount }),
    inlineSource E m0 (E.resolveName name).2 source, { r0 with refcount := r0.refcount },
    put_same _ _ _, hc, ?_⟩
  simp [Mount, hd, HasMount_of_some hm0, hostCall, hg, Increment_of_some hm0, Count,
    Decrement, put_same]

theorem GetOption_Decrement (m : Registry) (name k key : String) :
    GetOption (Decrement m name) k key = GetOption m k key := by
  unfold GetOption Decrement
  cases hm : m name with
  | none => simp
  | some r =>
    by_cases hk : k = name
    · subst hk
      simp [Registry.put, hm]
    · simp [Registry.put, hk]

theorem GetOptionAsBool_Decrement (E : Env) (m : Registry) (name k key : String) :
    GetOptionAsBool E (Decrement m name) k key = GetOptionAsBool E m k key := by
  unfold GetOptionAsBool Decrement
  cases hm : m name with
  | none => simp
  | some r =>
    by_cases hk : k = name
    · subst hk
      simp [Registry.put, hm]
    · simp [Registry.put, hk]

theorem subdirPolicy_Decrement (E : Env) (m : Registry) (name : String) :
    subdirPolicy E (Decrement m name) name ↔ subdirPolicy E m name := by
  simp [subdirPolicy, GetOption_Decrement, GetOptionAsBool_Decrement]

/-- Every way a `Mount` call can end on a name with a record whose mountpoint
the host does not report as mounted (lines 85-129), with the host operations it
performed and the refcount it leaves. -/
theorem Mount_stale_cases (E : Env) (h : Host) (n : nfsDriver) (s : State) (name : String)
    (r : MountRecord) (hr : s.mounts (E.resolveName name).1 = some r)
    (hg : h s.trace (.grepMounts (E.mountpoint n.root (E.resolveName name).1)) = false) :
    h (s.trace ++ [(.grepMounts (E.mountpoint n.root (E.resolveName name).1), false)])
        (.createDest (E.mountpoint n.root (E.resolveName name).1)) = false ∧
      (Mount E h n s name).1 = .error (.createDest (E.mountpoint n.root (E.resolveName name).1)) ∧
      (Mount E h n s name).2.trace = s.trace ++
        [(.grepMounts (E.mountpoint n.root (E.resolveName name).1), false),
         (.createDest (E.mountpoint n.root (E.resolveName name).1), false)] ∧
      HasMount (Mount E h n s name).2.mounts (E.resolveName name).1 = true ∧
      Count (Mount E h n s name).2.mounts (E.resolveName name).1 = r.refcount - 1
    ∨ (∃ cmd source,
      h (s.trace ++ [(.grepMounts (E.mountpoint n.root (E.resolveName name).1), false),
          (.createDest (E.mountpoint n.root (E.resolveName name).1), true)])
        (.mountCmd cmd source (E.mountpoint n.root (E.resolveName name).1)) = false ∧
      (Mount E h n s name).1 =
        .error (.mountCmd cmd source (E.mountpoint n.root (E.resolveName name).1)) ∧
      (Mount E h n s name).2.trace = s.trace ++
        [(.grepMounts (E.mountpoint n.root (E.resolveName name).1), false),
         (.createDest (E.mountpoint n.root (E.resolveName name).1), true),
         (.mountCmd cmd source (E.mountpoint n.root (E.resolveName name).1), false)] ∧
      HasMount (Mount E h n s name).2.mounts (E.resolveName name).1 = true ∧
      Count (Mount E h n s name).2.mounts (E.resolveName name).1 = r.refcount)
    ∨ (∃ cmd source,
      ¬ subdirPolicy E (Mount E h n s name).2.mounts (E.resolveName name).1 ∧
      (Mount E h n s name).1 = .ok (E.mountpoint n.root (E.resolveName name).1) ∧
      (Mount E h n s name).2.trace = s.trace ++
        [(.grepMounts (E.mountpoint n.root (E.resolveName name).1), false),
         (.createDest (E.mountpoint n.root (E.resolveName name).1), true),
         (.mountCmd cmd source (E.mountpoint n.root (E.resolveName name).1), true)] ∧
      HasMount (Mount E h n s name).2.mounts (E.resolveName name).1 = true ∧
      Count (Mount E h n s name).2.mounts (E.resolveName name).1 = r.refcount + 1)
    ∨ (∃ cmd source,
      subdirPolicy E (Mount E h n s name).2.mounts (E.resolveName name).1 ∧
      (Mount E h n s name).1 =
        .ok (E.pathJoin (E.mountpoint n.root (E.resolveName name).1) (E.resolveName name).1) ∧
      (Mount E h n s name).2.trace = s.trace ++
        [(.grepMounts (E.mountpoint n.root (E.resolveName name).1), false),
         (.createDest (E.mountpoint n.root (E.resolveName name).1), true),
         (.mountCmd cmd source (E.mountpoint n.root (E.resolveName name).1), true),
         (.createDest
           (E.pathJoin (E.mountpoint n.root (E.resolveName name).1) (E.resolveName name).1),
           true)] ∧
      HasMount (Mount E h n s name).2.mounts (E.resolveName name).1 = true ∧
      Count (Mount E h n s name).2.mounts (E.resolveName name).1 = r.refcount + 1)
    ∨ (∃ cmd source,
      h (s.trace ++ [(.grepMounts (E.mountpoint n.root (E.resolveName name).1), false),
          (.createDest (E.mountpoint n.root (E.resolveName name).1), true),
          (.mountCmd cmd source (E.mountpoint n.root (E.resolveName name).1), true)])
        (.createDest
          (E.pathJoin (E.mountpoint n.root (E.resolveName name).1) (E.resolveName name).1)) =
        false ∧
      subdirPolicy E (Mount E h n s name).2.mounts (E.resolveName name).1 ∧
      (Mount E h n s name).1 =
        .error (.createDest
          (E.pathJoin (E.mountpoint n.root (E.resolveName name).1) (E.resolveName name).1)) ∧
      (Mount E h n s name).2.trace = s.trace ++
        [(.grepMounts (E.mountpoint n.root (E.resolveName name).1), false),
         (.createDest (E.mountpoint n.root (E.resolveName name).1), true),
         (.mountCmd cmd source (E.mountpoint n.root (E.resolveName name).1), true),
         (.createDest
           (E.pathJoin (E.mountpoint n.root (E.resolveName name).1) (E.resolveName name).1),
           false)] ∧
      HasMount (Mount E h n s name).2.mounts (E.resolveName name).1 = true ∧
      Count (Mount E h n s name).2.mounts (E.resolveName name).1 = r.refcount) := by
  obtain ⟨m1, source, r1, hm1, hc1, hM⟩ := Mount_stale E h n s name r hr hg
  rw [hM, ← hc1]
  clear hc1 hM hr
  generalize E.resolveName name = rn at *
  generalize E.mountpoint n.root rn.1 = hostdir at *
  cases hc : h (s.trace ++ [(.grepMounts hostdir, false)]) (.createDest hostdir) with
  | false =>
    left
    rw [mountFresh_createDest_failed E h n _ _ _ _ _ hc]
    refine ⟨rfl, rfl, by simp, ?_, ?_⟩
    · by_cases hcnt : 0 < r1.refcount <;>
        simp [Count, Decrement, hm1, hcnt, HasMount, put_same]
    · by_cases hcnt : 0 < r1.refcount
      · simp [Count, Decrement, hm1, hcnt, put_same]
      · simp [Count, hm1, hcnt]
        omega
  | true =>
    right
    cases hm : h (s.trace ++ [(.grepMounts hostdir, false)] ++ [(.createDest hostdir, true)])
      (.mountCmd (mountVolumeCmd E n (Add m1 rn.1 hostdir) rn.1 source hostdir n.version)
        source hostdir) with
    | false =>
      left
      rw [mountFresh_mount_failed E h n _ _ _ _ _ r1 hm1 hc hm]
      refine ⟨_, _, by simpa using hm, rfl, by simp, ?_, ?_⟩
      · simp [Add, Decrement, hm1, HasMount, put_same]
      · simp [Add, Decrement, hm1, Count, put_same]
    | true =>
      right
      rw [mountFresh_mounted E h n _ _ _ _ _ r1 hm1 hc hm]
      by_cases hp : subdirPolicy E (Add m1 rn.1 hostdir) rn.1
      · right
        cases hs : h (s.trace ++ [(.grepMounts hostdir, false)] ++
            [(.createDest hostdir, true),
             (.mountCmd (mountVolumeCmd E n (Add m1 rn.1 hostdir) rn.1 source hostdir n.version)
               source hostdir, true)])
            (.createDest (E.pathJoin hostdir rn.1)) with
        | false =>
          right
          rw [mountSubdir_failed E h _ _ _ hp hs]
          refine ⟨mountVolumeCmd E n (Add m1 rn.1 hostdir) rn.1 source hostdir n.version, source,
            by simpa using hs, (subdirPolicy_Decrement E _ _).mpr hp, rfl,
            by simp, ?_, ?_⟩
          · simp [Add, Decrement, hm1, HasMount, put_same]
          · simp [Add, Decrement, hm1, Count, put_same]
        | true =>
          left
          rw [mountSubdir_created E h _ _ _ hp hs]
          refine ⟨mountVolumeCmd E n (Add m1 rn.1 hostdir) rn.1 source hostdir n.version, source, hp, rfl, by simp, ?_, ?_⟩
          · simp [Add, hm1, HasMount, put_same]
          · simp [Add, hm1, Count, put_same]
      · left
        rw [mountSubdir_plain E h _ _ _ hp]
        refine ⟨mountVolumeCmd E n (Add m1 rn.1 hostdir) rn.1 source hostdir n.version, source, hp, rfl, by simp, ?_, ?_⟩
        · simp [Add, hm1, HasMount, put_same]
        · simp [Add, hm1, Count, put_same]

/-! ## Claims -/

/-- Lines 85-98 on a name with a record whose mountpoint the host reports as
mounted: the call ends at line 96. -/
theorem Mount_live (E : Env) (h : Host) (n : nfsDriver) (s : State) (name : String)
    (hrec : HasMount s.mounts (E.resolveName name).1 = true)
    (hlive : h s.trace (.grepMounts (E.mountpoint n.root (E.resolveName name).1)) = true) :
    (Mount E h n s name).1 = .ok (E.mountpoint n.root (E.resolveName name).1) ∧
    (Mount E h n s name).2.trace =
      s.trace ++ [(.grepMounts (E.mountpoint n.root (E.resolveName name).1), true)] ∧
    Count (Mount E h n s name).2.mounts (E.resolveName name).1 =
      Count s.mounts (E.resolveName name).1 + 1 := by
  obtain ⟨r, hr⟩ := Option.isSome_iff_exists.mp hrec
  obtain ⟨m0, source, r0, hd, hm0, hc, -, -⟩ := defaultSource_of_some E n hr
  simp [Mount, hd, HasMount_of_some hm0, hostCall, hlive, Increment_of_some hm0,
    Count, put_same, hr, hc]

/-- Lines 54-60 on a name without a record: `Mount` panics before any host
operation and leaves the state as it was. -/
theorem Mount_of_none (E : Env) (h : Host) (n : nfsDriver) (s : State) (name : String)
    (hr : s.mounts (E.resolveName name).1 = none) :
    Mount E h n s name = (.nilDeref, s) := by
  simp [Mount, defaultSource_of_none E n hr]

/-- C4: a Mount call on a name that has a registry record (with any refcount)
whose mountpoint the host does not report as mounted, and in which every
directory creation and the host mount succeed, invokes the host mount operation
exactly once and leaves the refcount exactly one above its value before the
call. -/
theorem Mount_stale_remount (E : Env) (h : Host) (n : nfsDriver) (s : State) (name : String)
    (hrec : HasMount s.mounts (E.resolveName name).1 = true)
    (hstale : h s.trace (.grepMounts (E.mountpoint n.root (E.resolveName name).1)) = false)
    (hok : ∀ e ∈ opsSince s (Mount E h n s name).2,
      e.1.isCreateDest = true ∨ e.1.isMount = true → e.2 = true) :
    (opsSince s (Mount E h n s name).2).countP (fun e => e.1.isMount) = 1 ∧
    Count (Mount E h n s name).2.mounts (E.resolveName name).1 =
      Count s.mounts (E.resolveName name).1 + 1 := by
  obtain ⟨r, hr⟩ := Option.isSome_iff_exists.mp hrec
  rw [Count_of_some hr]
  rcases Mount_stale_cases E h n s name r hr hstale with
    ⟨-, -, ho, -, -⟩ | ⟨cmd, src, -, -, ho, -, -⟩ | ⟨cmd, src, -, -, ho, -, hc⟩ |
    ⟨cmd, src, -, -, ho, -, hc⟩ | ⟨cmd, src, -, -, -, ho, -, -⟩
  all_goals replace ho := opsSince_of_trace ho
  · have := hok (.createDest (E.mountpoint n.root (E.resolveName name).1), false)
      (by simp [ho]) (by simp [HostOp.isCreateDest])
    simp at this
  · have := hok (.mountCmd cmd src (E.mountpoint n.root (E.resolveName name).1), false)
      (by simp [ho]) (by simp [HostOp.isMount])
    simp at this
  · exact ⟨by simp [ho, HostOp.isMount, List.countP_cons], hc⟩
  · exact ⟨by simp [ho, HostOp.isMount, List.countP_cons], hc⟩
  · have := hok (.createDest
        (E.pathJoin (E.mountpoint n.root (E.resolveName name).1) (E.resolveName name).1), false)
      (by simp [ho]) (by simp [HostOp.isCreateDest])
    simp at this

/-- C4, at a concrete input: a record of refcount 2 with share + create policy
whose mountpoint is not mounted; the call mounts once and ends at refcount 3. -/
theorem Mount_stale_remount_witness :
    (opsSince ⟨vol1Registry shareCreateOpts 2, []⟩
      (Mount sampleEnv tableHost sampleDriver ⟨vol1Registry shareCreateOpts 2, []⟩ "vol1").2).countP
        (fun e => e.1.isMount) = 1 ∧
    Count (Mount sampleEnv tableHost sampleDriver
      ⟨vol1Registry shareCreateOpts 2, []⟩ "vol1").2.mounts "vol1" = 2 + 1 :=
  Mount_stale_remount sampleEnv tableHost sampleDriver ⟨vol1Registry shareCreateOpts 2, []⟩ "vol1"
    (by decide) (by decide) (by decide)

/-- C3: a Mount call on a name that has a registry record and whose mountpoint
the host reports as mounted performs no host operation but the mount-table
query (no host mount, no directory creation), returns the mountpoint with a nil
error, and raises the refcount of the name by exactly one. -/
theorem Mount_live_record (E : Env) (h : Host) (n : nfsDriver) (s : State) (name : String)
    (hrec : HasMount s.mounts (E.resolveName name).1 = true)
    (hlive : h s.trace (.grepMounts (E.mountpoint n.root (E.resolveName name).1)) = true) :
    (Mount E h n s name).1 = .ok (E.mountpoint n.root (E.resolveName name).1) ∧
    opsSince s (Mount E h n s name).2 =
      [(.grepMounts (E.mountpoint n.root (E.resolveName name).1), true)] ∧
    (∀ e ∈ opsSince s (Mount E h n s name).2,
      e.1.isMount = false ∧ e.1.isCreateDest = false) ∧
    Count (Mount E h n s name).2.mounts (E.resolveName name).1 =
      Count s.mounts (E.resolveName name).1 + 1 := by
  obtain ⟨hres, ht, hc⟩ := Mount_live E h n s name hrec hlive
  refine ⟨hres, opsSince_of_trace ht, ?_, hc⟩
  rw [opsSince_of_trace ht]
  simp [HostOp.isMount, HostOp.isCreateDest]

/-- C3, at a concrete input: a record of refcount 1 on a host that reports the
mountpoint as mounted. -/
theorem Mount_live_record_witness :
    (Mount sampleEnv liveHost sampleDriver ⟨vol1Registry none 1, []⟩ "vol1").1 =
      .ok "/mnt/vol1" ∧
    opsSince ⟨vol1Registry none 1, []⟩
      (Mount sampleEnv liveHost sampleDriver ⟨vol1Registry none 1, []⟩ "vol1").2 =
      [(.grepMounts "/mnt/vol1", true)] ∧
    (∀ e ∈ opsSince ⟨vol1Registry none 1, []⟩
        (Mount sampleEnv liveHost sampleDriver ⟨vol1Registry none 1, []⟩ "vol1").2,
      e.1.isMount = false ∧ e.1.isCreateDest = false) ∧
    Count (Mount sampleEnv liveHost sampleDriver ⟨vol1Registry none 1, []⟩ "vol1").2.mounts
      "vol1" = 1 + 1 :=
  Mount_live_record sampleEnv liveHost sampleDriver ⟨vol1Registry none 1, []⟩ "vol1"
    (by decide) (by decide)

/-- C6: in every Mount call in which the host mount operation fails, Mount
returns the error of that operation, the name has a registry record after the
call, and its refcount is what it was before the call. (A name without a record
never gets as far as the host mount: see `Mount_of_none`.) -/
theorem Mount_host_mount_failed (E : Env) (h : Host) (n : nfsDriver) (s : State)
    (name cmd source dest : String)
    (hfail : (HostOp.mountCmd cmd source dest, false) ∈ opsSince s (Mount E h n s name).2) :
    (Mount E h n s name).1 = .error (.mountCmd cmd source dest) ∧
    HasMount (Mount E h n s name).2.mounts (E.resolveName name).1 = true ∧
    Count (Mount E h n s name).2.mounts (E.resolveName name).1 =
      Count s.mounts (E.resolveName name).1 := by
  cases hr : s.mounts (E.resolveName name).1 with
  | none =>
    rw [Mount_of_none E h n s name hr, opsSince_self] at hfail
    simp at hfail
  | some r =>
    rw [Count_of_some hr]
    cases hg : h s.trace (.grepMounts (E.mountpoint n.root (E.resolveName name).1)) with
    | true =>
      have hl := (Mount_live E h n s name (HasMount_of_some hr) hg).2.1
      rw [opsSince_of_trace hl] at hfail
      simp at hfail
    | false =>
      rcases Mount_stale_cases E h n s name r hr hg with
        ⟨-, -, ho, -, -⟩ | ⟨cmd', src', -, hres, ho, hh, hc⟩ | ⟨cmd', src', -, -, ho, -, -⟩ |
        ⟨cmd', src', -, -, ho, -, -⟩ | ⟨cmd', src', -, -, -, ho, -, -⟩
      all_goals replace ho := opsSince_of_trace ho
      all_goals rw [ho] at hfail
      all_goals simp at hfail
      obtain ⟨rfl, rfl, rfl⟩ := hfail
      exact ⟨hres, hh, hc⟩

/-- C6, at a concrete input: a stale record of refcount 2 on a host whose mount
command fails. -/
theorem Mount_host_mount_failed_witness :
    (Mount sampleEnv (failingHost (.mountCmd "mount -t nfs4 host:/export /mnt/vol1" "host:/export" "/mnt/vol1"))
      sampleDriver ⟨vol1Registry shareCreateOpts 2, []⟩ "vol1").1 =
      .error (.mountCmd "mount -t nfs4 host:/export /mnt/vol1" "host:/export" "/mnt/vol1") ∧
    HasMount (Mount sampleEnv
      (failingHost (.mountCmd "mount -t nfs4 host:/export /mnt/vol1" "host:/export" "/mnt/vol1"))
      sampleDriver ⟨vol1Registry shareCreateOpts 2, []⟩ "vol1").2.mounts "vol1" = true ∧
    Count (Mount sampleEnv
      (failingHost (.mountCmd "mount -t nfs4 host:/export /mnt/vol1" "host:/export" "/mnt/vol1"))
      sampleDriver ⟨vol1Registry shareCreateOpts 2, []⟩ "vol1").2.mounts "vol1" =
      Count (vol1Registry shareCreateOpts 2) "vol1" :=
  Mount_host_mount_failed sampleEnv
    (failingHost (.mountCmd "mount -t nfs4 host:/export /mnt/vol1" "host:/export" "/mnt/vol1"))
    sampleDriver ⟨vol1Registry shareCreateOpts 2, []⟩ "vol1"
    "mount -t nfs4 host:/export /mnt/vol1" "host:/export" "/mnt/vol1" (by decide)

/-- C2, at the failing input: with no record for `vol1`, default share
`host:/export` and no default create option, `Mount("vol1")` does not complete:
line 60 dereferences the nil record pointer. No host mount is invoked, no record
is made and the refcount stays 0. -/
theorem Mount_fresh_default_share_nilDeref :
    HasMount emptyRegistry "vol1" = false ∧
    sampleDriver.share = "host:/export" ∧ sampleDriver.create = "" ∧
    (Mount sampleEnv liveHost sampleDriver ⟨emptyRegistry, []⟩ "vol1").1 = .nilDeref ∧
    (Mount sampleEnv liveHost sampleDriver ⟨emptyRegistry, []⟩ "vol1").2.trace = [] ∧
    HasMount (Mount sampleEnv liveHost sampleDriver ⟨emptyRegistry, []⟩ "vol1").2.mounts
      "vol1" = false ∧
    Count (Mount sampleEnv liveHost sampleDriver ⟨emptyRegistry, []⟩ "vol1").2.mounts
      "vol1" = 0 := by
  decide

/-- Lines 85-106: when the record is stale and creating the mountpoint fails,
the refcount is lowered twice (lines 92 and 103) after being raised once (line
87): it ends one below its value before the call, floored at zero. -/
theorem Mount_stale_createDest_failed (E : Env) (h : Host) (n : nfsDriver) (s : State)
    (name : String) (r : MountRecord) (hr : s.mounts (E.resolveName name).1 = some r)
    (hg : h s.trace (.grepMounts (E.mountpoint n.root (E.resolveName name).1)) = false)
    (hc : h (s.trace ++ [(.grepMounts (E.mountpoint n.root (E.resolveName name).1), false)])
      (.createDest (E.mountpoint n.root (E.resolveName name).1)) = false) :
    (Mount E h n s name).1 = .error (.createDest (E.mountpoint n.root (E.resolveName name).1)) ∧
    Count (Mount E h n s name).2.mounts (E.resolveName name).1 = r.refcount - 1 := by
  obtain ⟨m1, source, r1, hm1, hc1, hM⟩ := Mount_stale E h n s name r hr hg
  rw [hM, mountFresh_createDest_failed E h n _ _ _ _ _ hc, ← hc1]
  refine ⟨rfl, ?_⟩
  by_cases hcnt : 0 < r1.refcount
  · simp [Count, Decrement, hm1, hcnt, put_same]
  · simp [Count, hm1, hcnt]
    omega

/-- C7, at the failing input: `vol1` has a record of refcount 1, the host does
not report its mountpoint as mounted and creating the mountpoint fails. Mount
returns the error without a host mount, but the refcount ends at 0, not at 1. -/
theorem Mount_createDest_failed_refcount :
    Count (vol1Registry none 1) "vol1" = 1 ∧
    (Mount sampleEnv deadHost sampleDriver ⟨vol1Registry none 1, []⟩ "vol1").1 =
      .error (.createDest "/mnt/vol1") ∧
    (Mount sampleEnv deadHost sampleDriver ⟨vol1Registry none 1, []⟩ "vol1").2.trace =
      [(.grepMounts "/mnt/vol1", false), (.createDest "/mnt/vol1", false)] ∧
    Count (Mount sampleEnv deadHost sampleDriver ⟨vol1Registry none 1, []⟩ "vol1").2.mounts
      "vol1" = 0 := by
  decide

/-- C10: in every Mount call that performs the host mount successfully, if the
record of the name then has a non-empty share option and a true create option,
the last host operation of the call is the creation of the directory
`mountpoint(root, name)/name`; when it succeeds Mount returns that sub-directory
(refcount one above its value before the call), when it fails Mount returns its
error and the refcount is back at its value before the call. Otherwise Mount
returns `mountpoint(root, name)`. -/
theorem Mount_subdir (E : Env) (h : Host) (n : nfsDriver) (s : State)
    (name cmd source dest : String)
    (hm : (HostOp.mountCmd cmd source dest, true) ∈ opsSince s (Mount E h n s name).2) :
    (subdirPolicy E (Mount E h n s name).2.mounts (E.resolveName name).1 →
      ∃ b, (opsSince s (Mount E h n s name).2).getLast? =
          some (.createDest
            (E.pathJoin (E.mountpoint n.root (E.resolveName name).1) (E.resolveName name).1),
            b) ∧
        (b = true →
          (Mount E h n s name).1 =
            .ok (E.pathJoin (E.mountpoint n.root (E.resolveName name).1)
              (E.resolveName name).1) ∧
          Count (Mount E h n s name).2.mounts (E.resolveName name).1 =
            Count s.mounts (E.resolveName name).1 + 1) ∧
        (b = false →
          (Mount E h n s name).1 =
            .error (.createDest (E.pathJoin (E.mountpoint n.root (E.resolveName name).1)
              (E.resolveName name).1)) ∧
          Count (Mount E h n s name).2.mounts (E.resolveName name).1 =
            Count s.mounts (E.resolveName name).1)) ∧
    (¬ subdirPolicy E (Mount E h n s name).2.mounts (E.resolveName name).1 →
      (Mount E h n s name).1 = .ok (E.mountpoint n.root (E.resolveName name).1)) := by
  cases hr : s.mounts (E.resolveName name).1 with
  | none =>
    rw [Mount_of_none E h n s name hr, opsSince_self] at hm
    simp at hm
  | some r =>
    rw [Count_of_some hr]
    cases hg : h s.trace (.grepMounts (E.mountpoint n.root (E.resolveName name).1)) with
    | true =>
      have hl := (Mount_live E h n s name (HasMount_of_some hr) hg).2.1
      rw [opsSince_of_trace hl] at hm
      simp at hm
    | false =>
      rcases Mount_stale_cases E h n s name r hr hg with
        ⟨-, -, ho, -, -⟩ | ⟨cmd', src', -, -, ho, -, -⟩ | ⟨cmd', src', hp, hres, ho, -, hc⟩ |
        ⟨cmd', src', hp, hres, ho, -, hc⟩ | ⟨cmd', src', -, hp, hres, ho, -, hc⟩
      all_goals replace ho := opsSince_of_trace ho
      · rw [ho] at hm
        simp at hm
      · rw [ho] at hm
        simp at hm
      · exact ⟨fun hp' => absurd hp' hp, fun _ => hres⟩
      · refine ⟨fun _ => ⟨true, by simp [ho], fun _ => ⟨hres, hc⟩, fun hb => ?_⟩,
          fun hp' => absurd hp hp'⟩
        simp at hb
      · refine ⟨fun _ => ⟨false, by simp [ho], fun hb => ?_, fun _ => ⟨hres, hc⟩⟩,
          fun hp' => absurd hp hp'⟩
        simp at hb

/-- C10, at a concrete input: a stale record with share + create policy; the
call mounts and returns the sub-directory `/mnt/vol1/vol1`. -/
theorem Mount_subdir_witness :
    (Mount sampleEnv tableHost sampleDriver ⟨vol1Registry shareCreateOpts 0, []⟩ "vol1").1 =
      .ok "/mnt/vol1/vol1" := by
  have hw := Mount_subdir sampleEnv tableHost sampleDriver ⟨vol1Registry shareCreateOpts 0, []⟩
    "vol1" "mount -t nfs4 host:/export /mnt/vol1" "host:/export" "/mnt/vol1" (by decide)
  obtain ⟨b, hlast, hok, -⟩ := hw.1 (by decide)
  have hb : b = true := by
    have hl : (opsSince ⟨vol1Registry shareCreateOpts 0, []⟩
        (Mount sampleEnv tableHost sampleDriver
          ⟨vol1Registry shareCreateOpts 0, []⟩ "vol1").2).getLast? =
        some (.createDest "/mnt/vol1/vol1", true) := by decide
    rw [hl] at hlast
    cases b with
    | true => rfl
    | false => simp at hlast
  exact (hok hb).1

/-! ## `Unmount` -/

theorem Count_afterDecrement (m : Registry) (name : String) :
    Count (afterDecrement m name) name = Count m name - 1 := by
  unfold afterDecrement
  cases hm : m name with
  | none => simp [HasMount, Count, hm]
  | some r => simp [HasMount, Count, Decrement, hm, put_same]

theorem HasMount_afterDecrement (m : Registry) (name : String) :
    HasMount (afterDecrement m name) name = HasMount m name := by
  unfold afterDecrement
  cases hm : m name with
  | none => simp [HasMount, hm]
  | some r => simp [HasMount, Decrement, hm, put_same]

/-- Lines 142-147: other containers still use the mount. -/
theorem Unmount_in_use (E : Env) (h : Host) (n : nfsDriver) (s : State) (name : String)
    (hc : 1 < Count s.mounts (E.resolveName name).1) :
    Unmount E h n s name =
      (.ok (), { s with mounts := Decrement s.mounts (E.resolveName name).1 }) := by
  have hrec : HasMount s.mounts (E.resolveName name).1 = true := by
    cases hm : s.mounts (E.resolveName name).1 with
    | none => simp [Count, hm] at hc
    | some r => simp [HasMount, hm]
  simp [Unmount, hrec, hc]

/-- Lines 148-156: the host unmount is reached and fails. -/
theorem Unmount_umount_fails (E : Env) (h : Host) (n : nfsDriver) (s : State) (name : String)
    (hreach : ¬ (HasMount s.mounts (E.resolveName name).1 = true ∧
      1 < Count s.mounts (E.resolveName name).1))
    (hu : h s.trace (.umount (E.mountpoint n.root (E.resolveName name).1)) = false) :
    Unmount E h n s name =
      (.error (.umount (E.mountpoint n.root (E.resolveName name).1)),
       { mounts := afterDecrement s.mounts (E.resolveName name).1
         trace := s.trace ++ [(.umount (E.mountpoint n.root (E.resolveName name).1), false)] }) := by
  unfold Unmount
  simp only [gt_iff_lt, if_neg hreach]
  by_cases hrec : HasMount s.mounts (E.resolveName name).1 = true <;>
    simp [hrec, hostCall, hu, afterDecrement]

/-- Lines 148-169: the host unmount is reached and succeeds. The last component
lists the host operations after the unmount. -/
theorem Unmount_umount_succeeds (E : Env) (h : Host) (n : nfsDriver) (s : State) (name : String)
    (hreach : ¬ (HasMount s.mounts (E.resolveName name).1 = true ∧
      1 < Count s.mounts (E.resolveName name).1))
    (hu : h s.trace (.umount (E.mountpoint n.root (E.resolveName name).1)) = true) :
    ∃ res rest, Unmount E h n s name =
      (res,
       { mounts := DeleteIfNotManaged E (afterDecrement s.mounts (E.resolveName name).1)
           (E.resolveName name).1
         trace := s.trace ++
           (.umount (E.mountpoint n.root (E.resolveName name).1), true) :: rest }) ∧
      ∀ e ∈ rest, e.1.isUmount = false ∧ e.1.isMount = false := by
  unfold Unmount
  simp only [gt_iff_lt, if_neg hreach]
  generalize E.mountpoint n.root (E.resolveName name).1 = hostdir at *
  have hs1 : (if HasMount s.mounts (E.resolveName name).1 = true then
      ({ s with mounts := Decrement s.mounts (E.resolveName name).1 } : State) else s) =
      { mounts := afterDecrement s.mounts (E.resolveName name).1, trace := s.trace } := by
    by_cases hrec : HasMount s.mounts (E.resolveName name).1 = true <;>
      simp [hrec, afterDecrement]
  rw [hs1]
  simp only [hostCall, hu, if_true]
  cases hl : h (s.trace ++ [(.umount hostdir, true)]) (.lsGrep hostdir) with
  | true =>
    exact ⟨.ok (), [(.lsGrep hostdir, true)], by simp,
      by simp [HostOp.isUmount, HostOp.isMount]⟩
  | false =>
    cases hd : h (s.trace ++ [(.umount hostdir, true)] ++ [(.lsGrep hostdir, false)])
        (.removeAll hostdir) with
    | true =>
      exact ⟨.ok (), [(.lsGrep hostdir, false), (.removeAll hostdir, true)], by simp [hd],
        by simp [HostOp.isUmount, HostOp.isMount]⟩
    | false =>
      exact ⟨.error (.removeAll hostdir),
        [(.lsGrep hostdir, false), (.removeAll hostdir, false)], by simp [hd],
        by simp [HostOp.isUmount, HostOp.isMount]⟩

/-- C5: an Unmount call on a name whose record has a refcount above 1 returns
success, performs no host operation (no host unmount, no directory removal),
keeps the record, and lowers the refcount by exactly one. -/
theorem Unmount_shared (E : Env) (h : Host) (n : nfsDriver) (s : State) (name : String)
    (hc : 1 < Count s.mounts (E.resolveName name).1) :
    (Unmount E h n s name).1 = .ok () ∧
    (Unmount E h n s name).2.trace = s.trace ∧
    HasMount (Unmount E h n s name).2.mounts (E.resolveName name).1 = true ∧
    Count (Unmount E h n s name).2.mounts (E.resolveName name).1 + 1 =
      Count s.mounts (E.resolveName name).1 := by
  rw [Unmount_in_use E h n s name hc]
  cases hm : s.mounts (E.resolveName name).1 with
  | none => simp [Count, hm] at hc
  | some r =>
    have hr : 1 < r.refcount := by simpa [Count, hm] using hc
    refine ⟨rfl, rfl, ?_, ?_⟩
    · simp [HasMount, Decrement, hm, put_same]
    · simp [Count, Decrement, hm, put_same]
      omega

/-- C5, at a concrete input: a record of refcount 3. -/
theorem Unmount_shared_witness :
    (Unmount sampleEnv deadHost sampleDriver ⟨vol1Registry none 3, []⟩ "vol1").1 = .ok () ∧
    (Unmount sampleEnv deadHost sampleDriver ⟨vol1Registry none 3, []⟩ "vol1").2.trace = [] ∧
    HasMount (Unmount sampleEnv deadHost sampleDriver
      ⟨vol1Registry none 3, []⟩ "vol1").2.mounts "vol1" = true ∧
    Count (Unmount sampleEnv deadHost sampleDriver
      ⟨vol1Registry none 3, []⟩ "vol1").2.mounts "vol1" + 1 = 3 :=
  Unmount_shared sampleEnv deadHost sampleDriver ⟨vol1Registry none 3, []⟩ "vol1" (by decide)

/-- C8: in every Unmount call that reaches the host unmount (no record, or a
refcount of at most 1) and in which the host unmount fails, Unmount returns that
error; the only host operation of the call is the failed unmount (the directory
is neither listed nor removed); the registry is the one the call had before the
unmount, with nothing deleted from it; a record that was there is still there. -/
theorem Unmount_host_umount_failed (E : Env) (h : Host) (n : nfsDriver) (s : State)
    (name : String)
    (hreach : HasMount s.mounts (E.resolveName name).1 = false ∨
      Count s.mounts (E.resolveName name).1 ≤ 1)
    (hfail : h s.trace (.umount (E.mountpoint n.root (E.resolveName name).1)) = false) :
    (Unmount E h n s name).1 = .error (.umount (E.mountpoint n.root (E.resolveName name).1)) ∧
    opsSince s (Unmount E h n s name).2 =
      [(.umount (E.mountpoint n.root (E.resolveName name).1), false)] ∧
    (Unmount E h n s name).2.mounts = afterDecrement s.mounts (E.resolveName name).1 ∧
    HasMount (Unmount E h n s name).2.mounts (E.resolveName name).1 =
      HasMount s.mounts (E.resolveName name).1 := by
  have hreach' : ¬ (HasMount s.mounts (E.resolveName name).1 = true ∧
      1 < Count s.mounts (E.resolveName name).1) := by
    rintro ⟨h1, h2⟩
    rcases hreach with h3 | h3
    · simp [h1] at h3
    · omega
  rw [Unmount_umount_fails E h n s name hreach' hfail]
  exact ⟨rfl, opsSince_of_trace rfl, rfl, HasMount_afterDecrement _ _⟩

/-- C8, at a concrete input: an ad-hoc record of refcount 1 on a host whose
unmount fails; the record is kept. -/
theorem Unmount_host_umount_failed_witness :
    (Unmount sampleEnv deadHost sampleDriver ⟨vol1Registry none 1, []⟩ "vol1").1 =
      .error (.umount "/mnt/vol1") ∧
    opsSince ⟨vol1Registry none 1, []⟩
      (Unmount sampleEnv deadHost sampleDriver ⟨vol1Registry none 1, []⟩ "vol1").2 =
      [(.umount "/mnt/vol1", false)] ∧
    (Unmount sampleEnv deadHost sampleDriver ⟨vol1Registry none 1, []⟩ "vol1").2.mounts =
      afterDecrement (vol1Registry none 1) "vol1" ∧
    HasMount (Unmount sampleEnv deadHost sampleDriver
      ⟨vol1Registry none 1, []⟩ "vol1").2.mounts "vol1" =
      HasMount (vol1Registry none 1) "vol1" :=
  Unmount_host_umount_failed sampleEnv deadHost sampleDriver ⟨vol1Registry none 1, []⟩ "vol1"
    (by decide) (by decide)

/-- C9 as stated fails: with a record of refcount 1 and a failing host unmount,
the refcount after the call is 0, not 1. -/
theorem Unmount_host_umount_failed_count_counterexample :
    ¬ ∀ (E : Env) (h : Host) (n : nfsDriver) (s : State) (name hostdir : String),
      (HostOp.umount hostdir, false) ∈ opsSince s (Unmount E h n s name).2 →
      Count (Unmount E h n s name).2.mounts (E.resolveName name).1 =
        Count s.mounts (E.resolveName name).1 := by
  intro hall
  have hc := hall sampleEnv deadHost sampleDriver ⟨vol1Registry none 1, []⟩ "vol1" "/mnt/vol1"
    (by decide)
  revert hc
  decide

/-- C9, amended: in every Unmount call in which the host unmount operation
fails, the refcount after the call is the refcount before the call lowered by
one and floored at zero; the decrement made before the host unmount (line 148)
is kept, not rolled back. -/
theorem Unmount_host_umount_failed_count (E : Env) (h : Host) (n : nfsDriver) (s : State)
    (name hostdir : String)
    (hfail : (HostOp.umount hostdir, false) ∈ opsSince s (Unmount E h n s name).2) :
    Count (Unmount E h n s name).2.mounts (E.resolveName name).1 =
      Count s.mounts (E.resolveName name).1 - 1 := by
  by_cases hreach : HasMount s.mounts (E.resolveName name).1 = true ∧
      1 < Count s.mounts (E.resolveName name).1
  · rw [Unmount_in_use E h n s name hreach.2] at hfail
    simp [opsSince] at hfail
  · cases hu : h s.trace (.umount (E.mountpoint n.root (E.resolveName name).1)) with
    | false =>
      rw [Unmount_umount_fails E h n s name hreach hu]
      exact Count_afterDecrement _ _
    | true =>
      obtain ⟨res, rest, hU, hrest⟩ := Unmount_umount_succeeds E h n s name hreach hu
      rw [hU, opsSince_of_trace rfl] at hfail
      simp at hfail
      have := (hrest _ hfail).1
      simp [HostOp.isUmount] at this

/-- C9 amended, at a concrete input: a record of refcount 1 on a host whose
unmount fails ends at refcount 0. -/
theorem Unmount_host_umount_failed_count_witness :
    Count (Unmount sampleEnv deadHost sampleDriver ⟨vol1Registry none 1, []⟩ "vol1").2.mounts
      "vol1" = 1 - 1 :=
  Unmount_host_umount_failed_count sampleEnv deadHost sampleDriver ⟨vol1Registry none 1, []⟩
    "vol1" "/mnt/vol1" (by decide)

/-! ## Mount and Unmount sequences -/

theorem mountedIn_append_single (t : Trace) (dir : String) (e : HostOp × Bool)
    (he : e.1.isMount = false ∧ e.1.isUmount = false) :
    mountedIn (t ++ [e]) dir = mountedIn t dir := by
  obtain ⟨op, b⟩ := e
  cases op <;> simp [mountedIn, List.foldl_append, HostOp.isMount, HostOp.isUmount] at he ⊢

theorem HasMount_of_Count_pos {m : Registry} {name : String} (hc : 0 < Count m name) :
    HasMount m name = true := by
  cases hm : m name with
  | none => simp [Count, hm] at hc
  | some r => simp [HasMount, hm]

theorem Count_Decrement (m : Registry) (name : String) :
    Count (Decrement m name) name = Count m name - 1 := by
  cases hm : m name with
  | none => simp [Count, Decrement, hm]
  | some r => simp [Count, Decrement, hm, put_same]

theorem Count_DeleteIfNotManaged (E : Env) (m : Registry) (name : String)
    (hc : Count m name = 0) : Count (DeleteIfNotManaged E m name) name = 0 := by
  unfold DeleteIfNotManaged
  split
  · exact hc
  · simp [Count, put_same]

theorem tableHost_faithful (dir : String) : faithfulHost tableHost dir := by
  simp [faithfulHost, tableHost]

/-- The first Mount on a record whose mountpoint is not mounted, on a faithful
host: one host mount, no host unmount, the mountpoint is mounted afterwards and
the refcount is one higher. -/
theorem Mount_first (E : Env) (h : Host) (n : nfsDriver) (s : State) (name : String)
    (r : MountRecord) (hh : faithfulHost h (E.mountpoint n.root (E.resolveName name).1))
    (hr : s.mounts (E.resolveName name).1 = some r)
    (hdead : mountedIn s.trace (E.mountpoint n.root (E.resolveName name).1) = false) :
    ∃ ops, (Mount E h n s name).2.trace = s.trace ++ ops ∧
      ops.countP (fun e => e.1.isMount) = 1 ∧ ops.countP (fun e => e.1.isUmount) = 0 ∧
      mountedIn (Mount E h n s name).2.trace (E.mountpoint n.root (E.resolveName name).1) = true ∧
      Count (Mount E h n s name).2.mounts (E.resolveName name).1 = r.refcount + 1 := by
  obtain ⟨hgrep, hcreate, hmount, -, -⟩ := hh
  have hg : h s.trace (.grepMounts (E.mountpoint n.root (E.resolveName name).1)) = false := by
    rw [hgrep, hdead]
  rcases Mount_stale_cases E h n s name r hr hg with
    ⟨hf, -⟩ | ⟨cmd, src, hf, -⟩ | ⟨cmd, src, -, -, ho, -, hc⟩ |
    ⟨cmd, src, -, -, ho, -, hc⟩ | ⟨cmd, src, hf, -⟩
  · rw [hcreate] at hf
    exact absurd hf (by simp)
  · rw [hmount] at hf
    exact absurd hf (by simp)
  · exact ⟨_, ho, by simp [HostOp.isMount, List.countP_cons],
      by simp [HostOp.isUmount, List.countP_cons],
      by simp [ho, mountedIn, List.foldl_append], hc⟩
  · exact ⟨_, ho, by simp [HostOp.isMount, List.countP_cons],
      by simp [HostOp.isUmount, List.countP_cons],
      by simp [ho, mountedIn, List.foldl_append], hc⟩
  · rw [hcreate] at hf
    exact absurd hf (by simp)

/-- Further Mount calls while the mountpoint is mounted, on a faithful host: no
host mount, no host unmount, one more refcount per call. -/
theorem MountTimes_live (E : Env) (h : Host) (n : nfsDriver) (name : String)
    (hh : faithfulHost h (E.mountpoint n.root (E.resolveName name).1)) (k : Nat) :
    ∀ s : State, 0 < Count s.mounts (E.resolveName name).1 →
      mountedIn s.trace (E.mountpoint n.root (E.resolveName name).1) = true →
      ∃ ops, (MountTimes E h n name k s).trace = s.trace ++ ops ∧
        ops.countP (fun e => e.1.isMount) = 0 ∧ ops.countP (fun e => e.1.isUmount) = 0 ∧
        Count (MountTimes E h n name k s).mounts (E.resolveName name).1 =
          Count s.mounts (E.resolveName name).1 + k := by
  induction k with
  | zero =>
    intro s _ _
    exact ⟨[], by simp [MountTimes], rfl, rfl, rfl⟩
  | succ k ih =>
    intro s hc hl
    have hg : h s.trace (.grepMounts (E.mountpoint n.root (E.resolveName name).1)) = true := by
      rw [hh.1, hl]
    obtain ⟨-, ht, hcount⟩ := Mount_live E h n s name (HasMount_of_Count_pos hc) hg
    have hl1 : mountedIn (Mount E h n s name).2.trace
        (E.mountpoint n.root (E.resolveName name).1) = true := by
      rw [ht, mountedIn_append_single _ _ _ (by simp [HostOp.isMount, HostOp.isUmount]), hl]
    obtain ⟨ops, hops, hm0, hu0, hcnt⟩ := ih (Mount E h n s name).2 (by omega) hl1
    refine ⟨(.grepMounts (E.mountpoint n.root (E.resolveName name).1), true) :: ops, ?_, ?_, ?_, ?_⟩
    · simp [MountTimes, hops, ht]
    · simpa [HostOp.isMount, List.countP_cons] using hm0
    · simpa [HostOp.isUmount, List.countP_cons] using hu0
    · simp only [MountTimes, hcnt, hcount]
      omega

/-- As many Unmount calls as the refcount, on a faithful host: exactly one host
unmount, no host mount, and the refcount ends at 0. -/
theorem UnmountTimes_all (E : Env) (h : Host) (n : nfsDriver) (name : String)
    (hh : faithfulHost h (E.mountpoint n.root (E.resolveName name).1)) (k : Nat) :
    ∀ s : State, Count s.mounts (E.resolveName name).1 = k + 1 →
      ∃ ops, (UnmountTimes E h n name (k + 1) s).trace = s.trace ++ ops ∧
        ops.countP (fun e => e.1.isMount) = 0 ∧ ops.countP (fun e => e.1.isUmount) = 1 ∧
        Count (UnmountTimes E h n name (k + 1) s).mounts (E.resolveName name).1 = 0 := by
  induction k with
  | zero =>
    intro s hc
    have hreach : ¬ (HasMount s.mounts (E.resolveName name).1 = true ∧
        1 < Count s.mounts (E.resolveName name).1) := by omega
    obtain ⟨res, rest, hU, hrest⟩ :=
      Unmount_umount_succeeds E h n s name hreach (hh.2.2.2.1 _ _)
    refine ⟨(.umount (E.mountpoint n.root (E.resolveName name).1), true) :: rest,
      by simp [UnmountTimes, hU], ?_, ?_, ?_⟩
    · rw [List.countP_cons_of_neg _ _ (by simp [HostOp.isMount]), List.countP_eq_zero]
      intro e he
      simp [(hrest e he).2]
    · rw [List.countP_cons_of_pos _ _ (by simp [HostOp.isUmount])]
      have : rest.countP (fun e => e.1.isUmount) = 0 := by
        rw [List.countP_eq_zero]
        intro e he
        simp [(hrest e he).1]
      omega
    · simp only [UnmountTimes, hU]
      apply Count_DeleteIfNotManaged
      rw [Count_afterDecrement, hc]
  | succ k ih =>
    intro s hc
    have hU := Unmount_in_use E h n s name (by omega)
    have hc1 : Count (Unmount E h n s name).2.mounts (E.resolveName name).1 = k + 1 := by
      rw [hU]
      show Count (Decrement s.mounts (E.resolveName name).1) (E.resolveName name).1 = k + 1
      rw [Count_Decrement, hc]
      rfl
    obtain ⟨ops, hops, hm0, hu1, hcnt⟩ := ih (Unmount E h n s name).2 hc1
    refine ⟨ops, ?_, hm0, hu1, ?_⟩
    · rw [UnmountTimes, hops, hU]
    · rw [UnmountTimes, hcnt]

/-- The balance property on a name that has a record: for every N >= 1, from a
record of refcount 0 whose mountpoint is not mounted, on a host on which every
operation succeeds and whose mount table reflects the mounts and unmounts
performed, N Mount calls followed by N Unmount calls invoke the host mount
exactly once and the host unmount exactly once, and the refcount ends at 0. -/
theorem MountUnmount_balanced (E : Env) (h : Host) (n : nfsDriver) (s : State) (name : String)
    (N : Nat) (r : MountRecord) (hN : 1 ≤ N)
    (hh : faithfulHost h (E.mountpoint n.root (E.resolveName name).1))
    (hr : s.mounts (E.resolveName name).1 = some r) (h0 : r.refcount = 0)
    (hdead : mountedIn s.trace (E.mountpoint n.root (E.resolveName name).1) = false) :
    (opsSince s (MountUnmount E h n name N s)).countP (fun e => e.1.isMount) = 1 ∧
    (opsSince s (MountUnmount E h n name N s)).countP (fun e => e.1.isUmount) = 1 ∧
    Count (MountUnmount E h n name N s).mounts (E.resolveName name).1 = 0 := by
  obtain ⟨k, rfl⟩ : ∃ k, N = k + 1 := ⟨N - 1, by omega⟩
  obtain ⟨ops1, ht1, hm1, hu1, hl1, hc1⟩ := Mount_first E h n s name r hh hr hdead
  obtain ⟨ops2, ht2, hm2, hu2, hc2⟩ :=
    MountTimes_live E h n name hh k (Mount E h n s name).2 (by omega) hl1
  have hcN : Count (MountTimes E h n name (k + 1) s).mounts (E.resolveName name).1 = k + 1 := by
    rw [MountTimes, hc2, hc1, h0]
    omega
  obtain ⟨ops3, ht3, hm3, hu3, hc3⟩ := UnmountTimes_all E h n name hh k _ hcN
  have ht : (MountUnmount E h n name (k + 1) s).trace = s.trace ++ (ops1 ++ ops2 ++ ops3) := by
    rw [MountUnmount, ht3, MountTimes, ht2, ht1]
    simp
  rw [opsSince_of_trace ht]
  refine ⟨?_, ?_, hc3⟩
  · simp [List.countP_append, hm1, hm2, hm3]
  · simp [List.countP_append, hu1, hu2, hu3]

/-- The balance property at a concrete input: three Mount calls and three
Unmount calls on a record of refcount 0. -/
theorem MountUnmount_balanced_vol1 :
    (opsSince ⟨vol1Registry none 0, []⟩
      (MountUnmount sampleEnv tableHost sampleDriver "vol1" 3 ⟨vol1Registry none 0, []⟩)).countP
        (fun e => e.1.isMount) = 1 ∧
    (opsSince ⟨vol1Registry none 0, []⟩
      (MountUnmount sampleEnv tableHost sampleDriver "vol1" 3 ⟨vol1Registry none 0, []⟩)).countP
        (fun e => e.1.isUmount) = 1 ∧
    Count (MountUnmount sampleEnv tableHost sampleDriver "vol1" 3
      ⟨vol1Registry none 0, []⟩).mounts "vol1" = 0 :=
  MountUnmount_balanced sampleEnv tableHost sampleDriver ⟨vol1Registry none 0, []⟩ "vol1" 3
    { mountpoint := "/mnt/vol1", opts := none, refcount := 0 } (by decide)
    (tableHost_faithful _) (by simp [vol1Registry, put_same, sampleEnv]) rfl (by decide)

/-- C1, at the failing input: `vol1` has no registry record, every host
operation succeeds and the mount table is exact. Each of the 2 Mount calls
panics at line 60 before any host operation, so the host mount is invoked 0
times, and each of the 2 Unmount calls invokes the host unmount, 2 times in
all. -/
theorem MountUnmount_fresh_name :
    HasMount emptyRegistry "vol1" = false ∧
    (Mount sampleEnv tableHost sampleDriver ⟨emptyRegistry, []⟩ "vol1").1 = .nilDeref ∧
    (opsSince ⟨emptyRegistry, []⟩
      (MountUnmount sampleEnv tableHost sampleDriver "vol1" 2 ⟨emptyRegistry, []⟩)).countP
        (fun e => e.1.isMount) = 0 ∧
    (opsSince ⟨emptyRegistry, []⟩
      (MountUnmount sampleEnv tableHost sampleDriver "vol1" 2 ⟨emptyRegistry, []⟩)).countP
        (fun e => e.1.isUmount) = 2 := by
  decide

/-! ## `mountVolume` -/

theorem mountVolumeCmd_resolved (E : Env) (n : nfsDriver) (m : Registry)
    (name source dest : String) (version : Int) :
    mountVolumeCmd E n m name source dest version =
      if version = 3 then
        (if E.debug then "mount" ++ " -v" else "mount") ++ " -t nfs -o " ++
          (if resolvedOpts n m name = "" then DefaultNfsV3 else resolvedOpts n m name) ++
          " " ++ source ++ " " ++ dest
      else if resolvedOpts n m name ≠ "" then
        (if E.debug then "mount" ++ " -v" else "mount") ++ " -t nfs4 -o " ++
          resolvedOpts n m name ++ " " ++ source ++ " " ++ dest
      else (if E.debug then "mount" ++ " -v" else "mount") ++ " -t nfs4 " ++ source ++ " " ++ dest := by
  rfl

theorem resolvedOpts_of_key (n : nfsDriver) (m : Registry) (name : String)
    (hk : HasOption m name NfsOptions = true) :
    resolvedOpts n m name = GetOption m name NfsOptions := by
  unfold resolvedOpts merge GetOptions GetOption
  unfold HasOption at hk
  cases hm : m name with
  | none => simp [hm] at hk
  | some r =>
    cases ho : r.opts with
    | none => simp [hm, ho, GoMap.lookup] at hk
    | some o =>
      cases hv : o NfsOptions with
      | none => simp [hm, ho, GoMap.lookup, hv] at hk
      | some v => simp [ho, GoMap.lookup, hv]

theorem resolvedOpts_of_no_key (n : nfsDriver) (m : Registry) (name : String)
    (hk : HasOption m name NfsOptions = false) :
    resolvedOpts n m name = (n.nfsopts NfsOptions).getD "" := by
  unfold resolvedOpts merge GetOptions
  unfold HasOption at hk
  cases hm : m name with
  | none => cases hd : n.nfsopts NfsOptions <;> simp [emptyMap, hd]
  | some r =>
    cases ho : r.opts with
    | none => cases hd : n.nfsopts NfsOptions <;> simp [ho, emptyMap, hd]
    | some o =>
      cases hv : o NfsOptions with
      | none => cases hd : n.nfsopts NfsOptions <;> simp [ho, hv, hd]
      | some v => simp [hm, ho, GoMap.lookup, hv] at hk

theorem NewNFSDriver_nfsopts (root : String) (version : Int) (nfsopts share create : String) :
    ((NewNFSDriver root version nfsopts share create).nfsopts NfsOptions).getD "" = nfsopts := by
  by_cases hd : nfsopts = ""
  · simp [NewNFSDriver, hd, emptyMap]
  · simp [NewNFSDriver, hd, StrMap.set]

/-- Lines 182-186 for a driver built by `NewNFSDriver`: the resolved string is
the record's own `nfsopts` value whenever the record's option map has that key,
and the driver-wide default only when it has no such key. -/
theorem mountVolume_record_opts_win (root : String) (version : Int)
    (nfsopts share create : String) (m : Registry) (name : String) :
    (HasOption m name NfsOptions = true →
      resolvedOpts (NewNFSDriver root version nfsopts share create) m name =
        GetOption m name NfsOptions) ∧
    (HasOption m name NfsOptions = false →
      resolvedOpts (NewNFSDriver root version nfsopts share create) m name = nfsopts) := by
  refine ⟨fun hk => resolvedOpts_of_key _ m name hk, fun hk => ?_⟩
  rw [resolvedOpts_of_no_key _ m name hk, NewNFSDriver_nfsopts]

/-- The resolved string at a concrete input: driver default `ro`; a record with
`nfsopts` set to `rw` resolves to `rw`, a record without options to `ro`. -/
theorem mountVolume_record_opts_win_witness :
    resolvedOpts (NewNFSDriver "/mnt" 4 "ro" "" "") (vol1Registry (nfsoptsOnly "rw") 0) "vol1" =
      GetOption (vol1Registry (nfsoptsOnly "rw") 0) "vol1" NfsOptions ∧
    GetOption (vol1Registry (nfsoptsOnly "rw") 0) "vol1" NfsOptions = "rw" ∧
    resolvedOpts (NewNFSDriver "/mnt" 4 "ro" "" "") (vol1Registry none 0) "vol1" = "ro" :=
  ⟨(mountVolume_record_opts_win "/mnt" 4 "ro" "" "" (vol1Registry (nfsoptsOnly "rw") 0)
      "vol1").1 (by decide),
   by decide,
   (mountVolume_record_opts_win "/mnt" 4 "ro" "" "" (vol1Registry none 0) "vol1").2
      (by decide)⟩

/-- C17: at a non-debug log level, with `opts` the resolved option string,
`mountVolume` executes `mount -t nfs -o O <source> <dest>` for version 3, where
O is `opts` if non-empty and `port=2049,nolock,proto=tcp` otherwise; for every
other version it executes `mount -t nfs4 -o <opts> <source> <dest>` if `opts` is
non-empty and `mount -t nfs4 <source> <dest>` if it is empty. -/
theorem mountVolume_command (E : Env) (h : Host) (n : nfsDriver) (s : State)
    (name source dest opts : String) (version : Int)
    (hdebug : E.debug = false) (hopts : resolvedOpts n s.mounts name = opts) :
    mountVolume E h n s name source dest version =
      hostCall h s (.mountCmd
        (if version = 3 then
          "mount -t nfs -o " ++ (if opts = "" then "port=2049,nolock,proto=tcp" else opts) ++
            " " ++ source ++ " " ++ dest
        else if opts = "" then "mount -t nfs4 " ++ source ++ " " ++ dest
        else "mount -t nfs4 -o " ++ opts ++ " " ++ source ++ " " ++ dest)
        source dest) := by
  subst hopts
  unfold mountVolume
  rw [mountVolumeCmd_resolved]
  simp only [hdebug, Bool.false_eq_true, if_false, DefaultNfsV3]
  by_cases hv : version = 3
  · simp only [hv, if_true]
    rfl
  · by_cases ho : resolvedOpts n s.mounts name = ""
    · simp only [hv, ho, if_false, if_true, ne_eq, not_true_eq_false]
      rfl
    · simp only [hv, ho, if_false, ne_eq, not_false_eq_true, if_true]
      rfl

/-- C17, at concrete inputs: NFSv3 without options, and NFSv4 with the options
`rw`. -/
theorem mountVolume_command_witness :
    mountVolume sampleEnv liveHost (NewNFSDriver "/mnt" 3 "" "" "") ⟨vol1Registry none 1, []⟩
        "vol1" "host:/export" "/mnt/vol1" 3 =
      hostCall liveHost ⟨vol1Registry none 1, []⟩
        (.mountCmd "mount -t nfs -o port=2049,nolock,proto=tcp host:/export /mnt/vol1"
          "host:/export" "/mnt/vol1") ∧
    mountVolume sampleEnv liveHost (NewNFSDriver "/mnt" 4 "rw" "" "") ⟨vol1Registry none 1, []⟩
        "vol1" "host:/export" "/mnt/vol1" 4 =
      hostCall liveHost ⟨vol1Registry none 1, []⟩
        (.mountCmd "mount -t nfs4 -o rw host:/export /mnt/vol1" "host:/export" "/mnt/vol1") :=
  ⟨mountVolume_command sampleEnv liveHost (NewNFSDriver "/mnt" 3 "" "" "")
      ⟨vol1Registry none 1, []⟩ "vol1" "host:/export" "/mnt/vol1" "" 3 rfl (by decide),
   mountVolume_command sampleEnv liveHost (NewNFSDriver "/mnt" 4 "rw" "" "")
      ⟨vol1Registry none 1, []⟩ "vol1" "host:/export" "/mnt/vol1" "rw" 4 rfl (by decide)⟩

/-! ## `Unmount` after a successful host unmount -/

/-- Lines 153-169 once the host unmount has succeeded: the three ways the call
can end, each with the host operations performed. -/
theorem Unmount_umount_succeeds_cases (E : Env) (h : Host) (n : nfsDriver) (s : State)
    (name : String)
    (hreach : ¬ (HasMount s.mounts (E.resolveName name).1 = true ∧
      1 < Count s.mounts (E.resolveName name).1))
    (hu : h s.trace (.umount (E.mountpoint n.root (E.resolveName name).1)) = true) :
    ((Unmount E h n s name).1 = .ok () ∧
      (Unmount E h n s name).2.trace = s.trace ++
        [(.umount (E.mountpoint n.root (E.resolveName name).1), true),
         (.lsGrep (E.mountpoint n.root (E.resolveName name).1), true)]) ∨
    ((Unmount E h n s name).1 = .ok () ∧
      (Unmount E h n s name).2.trace = s.trace ++
        [(.umount (E.mountpoint n.root (E.resolveName name).1), true),
         (.lsGrep (E.mountpoint n.root (E.resolveName name).1), false),
         (.removeAll (E.mountpoint n.root (E.resolveName name).1), true)]) ∨
    ((Unmount E h n s name).1 = .error (.removeAll (E.mountpoint n.root (E.resolveName name).1)) ∧
      (Unmount E h n s name).2.trace = s.trace ++
        [(.umount (E.mountpoint n.root (E.resolveName name).1), true),
         (.lsGrep (E.mountpoint n.root (E.resolveName name).1), false),
         (.removeAll (E.mountpoint n.root (E.resolveName name).1), false)]) := by
  unfold Unmount
  simp only [gt_iff_lt, if_neg hreach]
  generalize E.mountpoint n.root (E.resolveName name).1 = hostdir at *
  have hs1 : (if HasMount s.mounts (E.resolveName name).1 = true then
      ({ s with mounts := Decrement s.mounts (E.resolveName name).1 } : State) else s) =
      { mounts := afterDecrement s.mounts (E.resolveName name).1, trace := s.trace } := by
    by_cases hrec : HasMount s.mounts (E.resolveName name).1 = true <;>
      simp [hrec, afterDecrement]
  rw [hs1]
  simp only [hostCall, hu, if_true]
  cases hl : h (s.trace ++ [(.umount hostdir, true)]) (.lsGrep hostdir) with
  | true => simp
  | false =>
    cases hd : h (s.trace ++ [(.umount hostdir, true)] ++ [(.lsGrep hostdir, false)])
        (.removeAll hostdir) with
    | true => simp [hd]
    | false => simp [hd]

theorem subdirPolicy_afterDecrement (E : Env) (m : Registry) (name : String) :
    subdirPolicy E (afterDecrement m name) name ↔ subdirPolicy E m name := by
  unfold afterDecrement
  split
  · exact subdirPolicy_Decrement E m name
  · exact Iff.rfl

/-- C14: in every Unmount call on a name with a record at refcount at most 1 in
which the host unmount succeeds, the record is absent afterwards when it does
not carry the share + create policy (an ad-hoc volume), and is still present
with refcount 0 when it does (a pre-created volume). -/
theorem Unmount_last_user (E : Env) (h : Host) (n : nfsDriver) (s : State) (name : String)
    (hrec : HasMount s.mounts (E.resolveName name).1 = true)
    (hc : Count s.mounts (E.resolveName name).1 ≤ 1)
    (hu : h s.trace (.umount (E.mountpoint n.root (E.resolveName name).1)) = true) :
    (¬ subdirPolicy E s.mounts (E.resolveName name).1 →
      HasMount (Unmount E h n s name).2.mounts (E.resolveName name).1 = false) ∧
    (subdirPolicy E s.mounts (E.resolveName name).1 →
      HasMount (Unmount E h n s name).2.mounts (E.resolveName name).1 = true ∧
      Count (Unmount E h n s name).2.mounts (E.resolveName name).1 = 0) := by
  have hreach : ¬ (HasMount s.mounts (E.resolveName name).1 = true ∧
      1 < Count s.mounts (E.resolveName name).1) := by omega
  obtain ⟨res, rest, hU, -⟩ := Unmount_umount_succeeds E h n s name hreach hu
  rw [hU]
  constructor
  · intro hp
    have hp' : ¬ subdirPolicy E (afterDecrement s.mounts (E.resolveName name).1)
        (E.resolveName name).1 := fun hq => hp ((subdirPolicy_afterDecrement E _ _).mp hq)
    unfold subdirPolicy at hp'
    simp only [DeleteIfNotManaged, if_neg hp']
    simp [HasMount, put_same]
  · intro hp
    have hp' : subdirPolicy E (afterDecrement s.mounts (E.resolveName name).1)
        (E.resolveName name).1 := (subdirPolicy_afterDecrement E _ _).mpr hp
    unfold subdirPolicy at hp'
    simp only [DeleteIfNotManaged, if_pos hp']
    refine ⟨by rw [HasMount_afterDecrement]; exact hrec, ?_⟩
    rw [Count_afterDecrement]
    omega

/-- C14, at concrete inputs: an ad-hoc record is gone after the last Unmount, a
record with share + create policy stays at refcount 0. -/
theorem Unmount_last_user_witness :
    HasMount (Unmount sampleEnv tableHost sampleDriver
      ⟨vol1Registry none 1, []⟩ "vol1").2.mounts "vol1" = false ∧
    (HasMount (Unmount sampleEnv tableHost sampleDriver
      ⟨vol1Registry shareCreateOpts 1, []⟩ "vol1").2.mounts "vol1" = true ∧
     Count (Unmount sampleEnv tableHost sampleDriver
      ⟨vol1Registry shareCreateOpts 1, []⟩ "vol1").2.mounts "vol1" = 0) :=
  ⟨(Unmount_last_user sampleEnv tableHost sampleDriver ⟨vol1Registry none 1, []⟩ "vol1"
      (by decide) (by decide) (by decide)).1 (by decide),
   (Unmount_last_user sampleEnv tableHost sampleDriver ⟨vol1Registry shareCreateOpts 1, []⟩
      "vol1" (by decide) (by decide) (by decide)).2 (by decide)⟩

/-- Lines 160-169 in terms of the listing command: in every Unmount call in
which the host unmount succeeds, the call runs the listing of line 161 next. If
the listing succeeds, that is the last host operation and Unmount returns
success. If it fails, the next and last host operation is `os.RemoveAll`, and
Unmount returns an error exactly when the removal fails. -/
theorem Unmount_directory (E : Env) (h : Host) (n : nfsDriver) (s : State)
    (name hostdir : String)
    (hu : (HostOp.umount hostdir, true) ∈ opsSince s (Unmount E h n s name).2) :
    ((Unmount E h n s name).1 = .ok () ∧
      opsSince s (Unmount E h n s name).2 =
        [(.umount (E.mountpoint n.root (E.resolveName name).1), true),
         (.lsGrep (E.mountpoint n.root (E.resolveName name).1), true)]) ∨
    ((Unmount E h n s name).1 = .ok () ∧
      opsSince s (Unmount E h n s name).2 =
        [(.umount (E.mountpoint n.root (E.resolveName name).1), true),
         (.lsGrep (E.mountpoint n.root (E.resolveName name).1), false),
         (.removeAll (E.mountpoint n.root (E.resolveName name).1), true)]) ∨
    ((Unmount E h n s name).1 = .error (.removeAll (E.mountpoint n.root (E.resolveName name).1)) ∧
      opsSince s (Unmount E h n s name).2 =
        [(.umount (E.mountpoint n.root (E.resolveName name).1), true),
         (.lsGrep (E.mountpoint n.root (E.resolveName name).1), false),
         (.removeAll (E.mountpoint n.root (E.resolveName name).1), false)]) := by
  by_cases hreach : HasMount s.mounts (E.resolveName name).1 = true ∧
      1 < Count s.mounts (E.resolveName name).1
  · rw [Unmount_in_use E h n s name hreach.2] at hu
    simp [opsSince] at hu
  · cases hh : h s.trace (.umount (E.mountpoint n.root (E.resolveName name).1)) with
    | false =>
      rw [Unmount_umount_fails E h n s name hreach hh, opsSince_of_trace rfl] at hu
      simp at hu
    | true =>
      rcases Unmount_umount_succeeds_cases E h n s name hreach hh with
        ⟨hres, ht⟩ | ⟨hres, ht⟩ | ⟨hres, ht⟩
      · exact Or.inl ⟨hres, opsSince_of_trace ht⟩
      · exact Or.inr (Or.inl ⟨hres, opsSince_of_trace ht⟩)
      · exact Or.inr (Or.inr ⟨hres, opsSince_of_trace ht⟩)

/-- The listing and removal at a concrete input: the last Unmount of an ad-hoc
record on a host whose listing finds nothing removes the directory. -/
theorem Unmount_directory_witness :
    ((Unmount sampleEnv tableHost sampleDriver ⟨vol1Registry none 1, []⟩ "vol1").1 = .ok () ∧
      opsSince ⟨vol1Registry none 1, []⟩
        (Unmount sampleEnv tableHost sampleDriver ⟨vol1Registry none 1, []⟩ "vol1").2 =
        [(.umount "/mnt/vol1", true), (.lsGrep "/mnt/vol1", true)]) ∨
    ((Unmount sampleEnv tableHost sampleDriver ⟨vol1Registry none 1, []⟩ "vol1").1 = .ok () ∧
      opsSince ⟨vol1Registry none 1, []⟩
        (Unmount sampleEnv tableHost sampleDriver ⟨vol1Registry none 1, []⟩ "vol1").2 =
        [(.umount "/mnt/vol1", true), (.lsGrep "/mnt/vol1", false),
         (.removeAll "/mnt/vol1", true)]) ∨
    ((Unmount sampleEnv tableHost sampleDriver ⟨vol1Registry none 1, []⟩ "vol1").1 =
        .error (.removeAll "/mnt/vol1") ∧
      opsSince ⟨vol1Registry none 1, []⟩
        (Unmount sampleEnv tableHost sampleDriver ⟨vol1Registry none 1, []⟩ "vol1").2 =
        [(.umount "/mnt/vol1", true), (.lsGrep "/mnt/vol1", false),
         (.removeAll "/mnt/vol1", false)]) :=
  Unmount_directory sampleEnv tableHost sampleDriver ⟨vol1Registry none 1, []⟩ "vol1"
    "/mnt/vol1" (by decide)

/-! ## Frame: other names are left alone -/

theorem Increment_other (m : Registry) (name k : String) (hk : k ≠ name) :
    Increment m name k = m k := by
  cases hm : m name <;> simp [Increment, hm, Registry.put, hk]

theorem Decrement_other (m : Registry) (name k : String) (hk : k ≠ name) :
    Decrement m name k = m k := by
  cases hm : m name <;> simp [Decrement, hm, Registry.put, hk]

theorem Add_other (m : Registry) (name hostdir k : String) (hk : k ≠ name) :
    Add m name hostdir k = m k := by
  cases hm : m name <;> simp [Add, hm, Registry.put, hk]

theorem Create_other (m : Registry) (name hostdir : String) (opts : GoMap) (k : String)
    (hk : k ≠ name) : Create m name hostdir opts k = m k := by
  cases hm : m name <;> simp [Create, hm, Registry.put, hk]

theorem DeleteIfNotManaged_other (E : Env) (m : Registry) (name k : String) (hk : k ≠ name) :
    DeleteIfNotManaged E m name k = m k := by
  unfold DeleteIfNotManaged
  split_ifs <;> simp [Registry.put, hk]

theorem defaultSource_other (E : Env) (n : nfsDriver) (m m0 : Registry) (name source k : String)
    (hd : defaultSource E n m name = some (m0, source)) (hk : k ≠ name) : m0 k = m k := by
  cases hm : m name with
  | none =>
    rw [defaultSource_of_none E n hm] at hd
    simp at hd
  | some r =>
    obtain ⟨m1, source1, r1, hd1, -, -, -, hother⟩ := defaultSource_of_some E n hm
    rw [hd1] at hd
    simp only [Option.some.injEq, Prod.mk.injEq] at hd
    rw [← hd.1]
    exact hother k hk

theorem mountSubdir_other (E : Env) (h : Host) (s : State) (name hostdir k : String)
    (hk : k ≠ name) : (mountSubdir E h s name hostdir).2.mounts k = s.mounts k := by
  unfold mountSubdir
  simp only [hostCall]
  split_ifs <;> simp [Decrement_other, hk]

theorem mountFresh_other (E : Env) (h : Host) (n : nfsDriver) (s : State)
    (name : String) (resOpts : GoMap) (source hostdir k : String) (hk : k ≠ name) :
    (mountFresh E h n s name resOpts source hostdir).2.mounts k = s.mounts k := by
  unfold mountFresh
  simp only [hostCall, mountVolume]
  split_ifs <;>
    simp [mountSubdir_other, Decrement_other, Add_other, Create_other, hk]

theorem Mount_other (E : Env) (h : Host) (n : nfsDriver) (s : State) (name k : String)
    (hk : k ≠ (E.resolveName name).1) : (Mount E h n s name).2.mounts k = s.mounts k := by
  unfold Mount
  simp only []
  cases hd : defaultSource E n s.mounts (E.resolveName name).1 with
  | none => rfl
  | some p =>
    obtain ⟨m0, source0⟩ := p
    have h0 : m0 k = s.mounts k := defaultSource_other E n _ _ _ _ _ hd hk
    simp only [hostCall]
    split_ifs <;>
      simp [mountFresh_other, Decrement_other, Increment_other, hk, h0]

theorem Unmount_other (E : Env) (h : Host) (n : nfsDriver) (s : State) (name k : String)
    (hk : k ≠ (E.resolveName name).1) : (Unmount E h n s name).2.mounts k = s.mounts k := by
  unfold Unmount
  simp only [hostCall]
  split_ifs <;>
    simp [DeleteIfNotManaged_other, Decrement_other, hk]

/-- C19: a Mount or Unmount call on a name leaves the registry entry of every
other canonical name as it was, whatever the host operations do: the other name
has a record after the call iff it had one before, with the same mountpoint,
options and refcount. -/
theorem Mount_Unmount_frame (E : Env) (h : Host) (n : nfsDriver) (s : State)
    (name other : String) (hne : other ≠ (E.resolveName name).1) :
    (Mount E h n s name).2.mounts other = s.mounts other ∧
    (Unmount E h n s name).2.mounts other = s.mounts other :=
  ⟨Mount_other E h n s name other hne, Unmount_other E h n s name other hne⟩

/-! ## The source handed to the host mount -/

theorem optsOf_Increment (m : Registry) (name k : String) :
    optsOf (Increment m name) k = optsOf m k := by
  by_cases hk : k = name
  · subst hk
    cases hm : m k <;> simp [optsOf, Increment, hm, Registry.put]
  · simp [optsOf, Increment_other _ _ _ hk]

theorem optsOf_Decrement (m : Registry) (name k : String) :
    optsOf (Decrement m name) k = optsOf m k := by
  by_cases hk : k = name
  · subst hk
    cases hm : m k <;> simp [optsOf, Decrement, hm, Registry.put]
  · simp [optsOf, Decrement_other _ _ _ hk]

theorem optsOf_Add (m : Registry) (name hostdir k : String) :
    optsOf (Add m name hostdir) k = optsOf m k := by
  by_cases hk : k = name
  · subst hk
    cases hm : m k <;> simp [optsOf, Add, hm, Registry.put]
  · simp [optsOf, Add_other _ _ _ _ hk]

theorem HasOption_of_optsOf {m m' : Registry} {name : String}
    (ho : optsOf m name = optsOf m' name) (key : String) :
    HasOption m name key = HasOption m' name key := by
  unfold optsOf at ho
  unfold HasOption
  cases hm : m name <;> cases hm' : m' name <;> simp_all

theorem GetOption_of_optsOf {m m' : Registry} {name : String}
    (ho : optsOf m name = optsOf m' name) (key : String) :
    GetOption m name key = GetOption m' name key := by
  unfold optsOf at ho
  unfold GetOption
  cases hm : m name <;> cases hm' : m' name <;> simp_all

theorem fixSource_of_optsOf (E : Env) {m m' : Registry} {name : String}
    (ho : optsOf m name = optsOf m' name) : fixSource E m name = fixSource E m' name := by
  unfold fixSource
  rw [HasOption_of_optsOf ho, GetOption_of_optsOf ho]

theorem mountSubdir_optsOf (E : Env) (h : Host) (s : State) (name hostdir k : String) :
    optsOf (mountSubdir E h s name hostdir).2.mounts k = optsOf s.mounts k := by
  unfold mountSubdir
  simp only [hostCall]
  split_ifs <;> simp [optsOf_Decrement]

theorem mountFresh_optsOf (E : Env) (h : Host) (n : nfsDriver) (s : State)
    (name : String) (resOpts : GoMap) (source hostdir k : String)
    (hrec : HasMount s.mounts name = true) :
    optsOf (mountFresh E h n s name resOpts source hostdir).2.mounts k = optsOf s.mounts k := by
  unfold mountFresh
  simp only [hostCall, mountVolume]
  split_ifs <;> simp_all [mountSubdir_optsOf, optsOf_Decrement, optsOf_Add]

/-- Lines 85-98 on a stale record, with the source the call goes on with: the
one of lines 54-83. -/
theorem Mount_stale_source (E : Env) (h : Host) (n : nfsDriver) (s : State) (name : String)
    (r : MountRecord) (hr : s.mounts (E.resolveName name).1 = some r)
    (hg : h s.trace (.grepMounts (E.mountpoint n.root (E.resolveName name).1)) = false) :
    ∃ m0 source0 m1 r1,
      defaultSource E n s.mounts (E.resolveName name).1 = some (m0, source0) ∧
      m1 (E.resolveName name).1 = some r1 ∧ (∀ k, optsOf m1 k = optsOf m0 k) ∧
      Mount E h n s name =
        mountFresh E h n
          { mounts := m1
            trace := s.trace ++
              [(.grepMounts (E.mountpoint n.root (E.resolveName name).1), false)] }
          (E.resolveName name).1 (E.resolveName name).2
          (inlineSource E m0 (E.resolveName name).2 source0)
          (E.mountpoint n.root (E.resolveName name).1) := by
  obtain ⟨m0, source, r0, hd, hm0, -, -, -⟩ := defaultSource_of_some E n hr
  refine ⟨m0, source, Decrement (Increment m0 (E.resolveName name).1) (E.resolveName name).1,
    { r0 with refcount := r0.refcount + 1 - 1 }, hd, ?_,
    fun k => by rw [optsOf_Decrement, optsOf_Increment], ?_⟩
  · simp [Increment_of_some hm0, Decrement, put_same]
  · simp [Mount, hd, HasMount_of_some hm0, hostCall, hg, Increment_of_some hm0, Count,
      put_same]

/-- The host mount commands of lines 100-129 carry the `source` and the
`hostdir` they were given. -/
theorem mountFresh_mount_ops (E : Env) (h : Host) (n : nfsDriver) (s : State)
    (name : String) (resOpts : GoMap) (source hostdir : String) (r : MountRecord)
    (hr : s.mounts name = some r) (cmd src dest : String) (b : Bool)
    (hm : (HostOp.mountCmd cmd src dest, b) ∈
      opsSince s (mountFresh E h n s name resOpts source hostdir).2) :
    src = source ∧ dest = hostdir := by
  cases hc : h s.trace (.createDest hostdir) with
  | false =>
    rw [mountFresh_createDest_failed E h n s name resOpts source hostdir hc,
      opsSince_of_trace rfl] at hm
    simp at hm
  | true =>
    cases hv : h (s.trace ++ [(.createDest hostdir, true)])
      (.mountCmd (mountVolumeCmd E n (Add s.mounts name hostdir) name source hostdir n.version)
        source hostdir) with
    | false =>
      rw [mountFresh_mount_failed E h n s name resOpts source hostdir r hr hc hv,
        opsSince_of_trace rfl] at hm
      simp at hm
      exact ⟨hm.1.2.1, hm.1.2.2⟩
    | true =>
      rw [mountFresh_mounted E h n s name resOpts source hostdir r hr hc hv] at hm
      by_cases hp : subdirPolicy E (Add s.mounts name hostdir) name
      · cases hs : h (s.trace ++ [(.createDest hostdir, true),
            (.mountCmd (mountVolumeCmd E n (Add s.mounts name hostdir) name source hostdir
              n.version) source hostdir, true)])
            (.createDest (E.pathJoin hostdir name)) with
        | false =>
          rw [mountSubdir_failed E h _ _ _ hp hs] at hm
          simp [opsSince] at hm
          exact ⟨hm.1.2.1, hm.1.2.2⟩
        | true =>
          rw [mountSubdir_created E h _ _ _ hp hs] at hm
          simp [opsSince] at hm
          exact ⟨hm.1.2.1, hm.1.2.2⟩
      · rw [mountSubdir_plain E h _ _ _ hp, opsSince_of_trace rfl] at hm
        simp at hm
        exact ⟨hm.1.2.1, hm.1.2.2⟩

theorem mountSubdir_trace (E : Env) (h : Host) (s : State) (name hostdir : String)
    (t l : Trace) (hs : s.trace = t ++ l) :
    ∃ ops, (mountSubdir E h s name hostdir).2.trace = t ++ ops := by
  unfold mountSubdir
  simp only [hostCall]
  split_ifs
  · exact ⟨_, by rw [hs]; exact List.append_assoc _ _ _⟩
  · exact ⟨_, by rw [hs]; exact List.append_assoc _ _ _⟩
  · exact ⟨l, hs⟩

theorem mountFresh_trace (E : Env) (h : Host) (n : nfsDriver) (s : State)
    (name : String) (resOpts : GoMap) (source hostdir : String) :
    ∃ ops, (mountFresh E h n s name resOpts source hostdir).2.trace = s.trace ++ ops := by
  unfold mountFresh
  simp only [hostCall, mountVolume]
  split_ifs
  all_goals first
    | exact mountSubdir_trace E h _ name hostdir s.trace _ (List.append_assoc _ _ _)
    | exact ⟨_, List.append_assoc _ _ _⟩
    | exact ⟨_, rfl⟩

/-- The host mount command of a `Mount` call: it exists only for a name with a
record, its source is the one lines 54-83 compute, its destination is the
mountpoint, and the options the registry holds afterwards are those it held
right after lines 54-75. -/
theorem Mount_mount_source (E : Env) (h : Host) (n : nfsDriver) (s : State)
    (name cmd src dest : String) (b : Bool)
    (hm : (HostOp.mountCmd cmd src dest, b) ∈ opsSince s (Mount E h n s name).2) :
    ∃ r m0 source0, s.mounts (E.resolveName name).1 = some r ∧
      defaultSource E n s.mounts (E.resolveName name).1 = some (m0, source0) ∧
      src = inlineSource E m0 (E.resolveName name).2 source0 ∧
      dest = E.mountpoint n.root (E.resolveName name).1 ∧
      ∀ k, optsOf (Mount E h n s name).2.mounts k = optsOf m0 k := by
  cases hr : s.mounts (E.resolveName name).1 with
  | none =>
    rw [Mount_of_none E h n s name hr, opsSince_self] at hm
    simp at hm
  | some r =>
    cases hg : h s.trace (.grepMounts (E.mountpoint n.root (E.resolveName name).1)) with
    | true =>
      have hl := (Mount_live E h n s name (HasMount_of_some hr) hg).2.1
      rw [opsSince_of_trace hl] at hm
      simp at hm
    | false =>
      obtain ⟨m0, source0, m1, r1, hd, hm1, ho1, hM⟩ := Mount_stale_source E h n s name r hr hg
      refine ⟨r, m0, source0, rfl, hd, ?_⟩
      rw [hM] at hm ⊢
      obtain ⟨ops, hops⟩ := mountFresh_trace E h n
        { mounts := m1
          trace := s.trace ++
            [(.grepMounts (E.mountpoint n.root (E.resolveName name).1), false)] }
        (E.resolveName name).1 (E.resolveName name).2
        (inlineSource E m0 (E.resolveName name).2 source0)
        (E.mountpoint n.root (E.resolveName name).1)
      have hin : (HostOp.mountCmd cmd src dest, b) ∈ ops := by
        rw [opsSince_of_trace (by rw [hops]; exact List.append_assoc _ _ _)] at hm
        simpa using hm
      have hsrc := mountFresh_mount_ops E h n _ _ _ _ _ r1 hm1 cmd src dest b
        (by rw [opsSince_of_trace hops]; exact hin)
      refine ⟨hsrc.1, hsrc.2, fun k => ?_⟩
      rw [mountFresh_optsOf E h n _ _ _ _ _ k (HasMount_of_some hm1)]
      exact ho1 k

theorem inlineSource_of_share (E : Env) (m : Registry) (resOpts : GoMap) (o : StrMap)
    (share source : String) (hopts : resOpts = some o) (hshare : o E.ShareOpt = some share) :
    inlineSource E m resOpts source = fixSource E m share := by
  simp [inlineSource, hopts, hshare]

theorem inlineSource_of_no_share (E : Env) (m : Registry) (resOpts : GoMap) (source : String)
    (hno : ∀ o, resOpts = some o → o E.ShareOpt = none) :
    inlineSource E m resOpts source = source := by
  cases hr : resOpts with
  | none => simp [inlineSource]
  | some o => simp [inlineSource, hno o hr]

/-- The source is not always the normalisation of the inline share: the inline
share `other` names a record whose share option is `host:/export`, and the host
mount gets `host:/export`, not `other`. -/
theorem Mount_inline_share_counterexample :
    ¬ ∀ (E : Env) (h : Host) (n : nfsDriver) (s : State) (name : String) (o : StrMap)
        (share cmd src dest : String) (b : Bool),
      (E.resolveName name).2 = some o → o E.ShareOpt = some share →
      (HostOp.mountCmd cmd src dest, b) ∈ opsSince s (Mount E h n s name).2 →
      src = E.addShareColon share := by
  intro hall
  have hc := hall inlineEnv tableHost plainDriver ⟨twoRegistry, []⟩ "vol1?share=other"
    (emptyMap.set "share" "other") "other" "mount -t nfs4 host:/export /mnt/vol1"
    "host:/export" "/mnt/vol1" true rfl rfl (by decide)
  revert hc
  decide

/-- What line 81 computes: in every Mount call whose inline options contain a
share value s and that reaches the host mount, the source passed to the host
mount is `fixSource(s)` on the registry as lines 54-75 leave it, whose options
are those of the registry after the call. For s different from the canonical
name that is also the registry before the call. -/
theorem Mount_inline_share (E : Env) (h : Host) (n : nfsDriver) (s : State) (name : String)
    (o : StrMap) (share cmd src dest : String) (b : Bool)
    (hopts : (E.resolveName name).2 = some o) (hshare : o E.ShareOpt = some share)
    (hm : (HostOp.mountCmd cmd src dest, b) ∈ opsSince s (Mount E h n s name).2) :
    src = fixSource E (Mount E h n s name).2.mounts share ∧
    (HasOption (Mount E h n s name).2.mounts share E.ShareOpt = false →
      src = E.addShareColon share) ∧
    (HasOption (Mount E h n s name).2.mounts share E.ShareOpt = true →
      src = E.addShareColon (GetOption (Mount E h n s name).2.mounts share E.ShareOpt)) ∧
    (share ≠ (E.resolveName name).1 → src = fixSource E s.mounts share) := by
  obtain ⟨r, m0, source0, -, -, hsrc, -, ho⟩ := Mount_mount_source E h n s name cmd src dest b hm
  rw [inlineSource_of_share E m0 _ o share source0 hopts hshare] at hsrc
  have h1 : src = fixSource E (Mount E h n s name).2.mounts share := by
    rw [hsrc]
    exact (fixSource_of_optsOf E (ho share)).symm
  refine ⟨h1, fun hk => ?_, fun hk => ?_, fun hne => ?_⟩
  · rw [h1]
    simp [fixSource, hk]
  · rw [h1]
    simp [fixSource, hk]
  · rw [h1]
    apply fixSource_of_optsOf
    unfold optsOf
    rw [Mount_other E h n s name share hne]

/-- The source of line 81 at a concrete input: the inline share `other` with a
record named `other` in the registry. -/
theorem Mount_inline_share_witness :
    "host:/export" = fixSource inlineEnv
      (Mount inlineEnv tableHost plainDriver ⟨twoRegistry, []⟩ "vol1?share=other").2.mounts
      "other" :=
  (Mount_inline_share inlineEnv tableHost plainDriver ⟨twoRegistry, []⟩ "vol1?share=other"
    (emptyMap.set "share" "other") "other" "mount -t nfs4 host:/export /mnt/vol1"
    "host:/export" "/mnt/vol1" true rfl rfl (by decide)).1

/-- Lines 58-75 when the record has a non-empty share option or an active
create option: the source is `fixSource(resolvedName)`. -/
theorem defaultSource_named (E : Env) (n : nfsDriver) (m m0 : Registry)
    (name source0 : String) (hd : defaultSource E n m name = some (m0, source0))
    (hp : GetOption m name E.ShareOpt ≠ "" ∨ GetOptionAsBool E m name E.CreateOpt = true) :
    source0 = fixSource E m name := by
  have hcond : ¬ (GetOption m name E.ShareOpt = "" ∧
      GetOptionAsBool E m name E.CreateOpt = false) := by
    rintro ⟨h1, h2⟩
    rcases hp with hp | hp
    · exact hp h1
    · simp [h2] at hp
  rw [defaultSource, if_neg hcond] at hd
  simp only [Option.some.injEq, Prod.mk.injEq] at hd
  exact hd.2.symm

/-- Lines 58-72 when the record has neither: the source comes from the driver
default share, and stays empty when there is none. -/
theorem defaultSource_default (E : Env) (n : nfsDriver) (m m0 : Registry)
    (name source0 : String) (hd : defaultSource E n m name = some (m0, source0))
    (h1 : GetOption m name E.ShareOpt = "") (h2 : GetOptionAsBool E m name E.CreateOpt = false) :
    (n.share = "" → source0 = "") ∧
    (n.share ≠ "" → n.share = name → source0 = E.addShareColon n.share) ∧
    (n.share ≠ "" → n.share ≠ name → source0 = fixSource E m n.share) := by
  rw [defaultSource, if_pos ⟨h1, h2⟩] at hd
  cases hm : m name with
  | none => simp [hm] at hd
  | some r =>
    simp only [hm, Option.some.injEq, Prod.mk.injEq] at hd
    obtain ⟨-, hs⟩ := hd
    refine ⟨fun he => ?_, fun hne heq => ?_, fun hne hneq => ?_⟩
    · rw [← hs]
      simp [he]
    · have hne' : name ≠ "" := heq ▸ hne
      rw [← hs, if_pos hne]
      simp [fixSource, HasOption, GetOption, heq, put_same, GoMap.lookup, StrMap.set, hne']
    · rw [← hs, if_pos hne]
      apply fixSource_of_optsOf
      simp [optsOf, put_other _ _ _ _ hneq]

/-- C12 as stated fails: `vol1` has a record without options and the driver has
the default share `host:/export`; the host mount gets `host:/export`, not the
canonical name `vol1`. -/
theorem Mount_named_source_counterexample :
    ¬ ∀ (E : Env) (h : Host) (n : nfsDriver) (s : State) (name cmd src dest : String)
        (b : Bool),
      (∀ o, (E.resolveName name).2 = some o → o E.ShareOpt = none) →
      (HostOp.mountCmd cmd src dest, b) ∈ opsSince s (Mount E h n s name).2 →
      (HasMount s.mounts (E.resolveName name).1 = true ∨
        GetOptionAsBool E s.mounts (E.resolveName name).1 E.CreateOpt = true) →
      src = E.addShareColon (E.resolveName name).1 := by
  intro hall
  have hc := hall sampleEnv tableHost sampleDriver ⟨vol1Registry none 0, []⟩ "vol1"
    "mount -t nfs4 host:/export /mnt/vol1" "host:/export" "/mnt/vol1" true
    (fun o ho => by simp [sampleEnv] at ho) (by decide) (by decide)
  revert hc
  decide

/-- C12, amended: in every Mount call without an inline share option that
reaches the host mount: if the record of the name has a non-empty share option
or an active create option, the source is `fixSource` of the canonical name,
that is the normalisation of the record's share option when the record has that
key and the normalisation of the canonical name when it has not; if the record
has neither and the driver has a default share, the source is `fixSource` of the
default share (its normalisation when it is the canonical name itself). -/
theorem Mount_named_source (E : Env) (h : Host) (n : nfsDriver) (s : State)
    (name cmd src dest : String) (b : Bool)
    (hno : ∀ o, (E.resolveName name).2 = some o → o E.ShareOpt = none)
    (hm : (HostOp.mountCmd cmd src dest, b) ∈ opsSince s (Mount E h n s name).2) :
    (GetOption s.mounts (E.resolveName name).1 E.ShareOpt ≠ "" ∨
        GetOptionAsBool E s.mounts (E.resolveName name).1 E.CreateOpt = true →
      src = fixSource E s.mounts (E.resolveName name).1 ∧
      (HasOption s.mounts (E.resolveName name).1 E.ShareOpt = true →
        src = E.addShareColon (GetOption s.mounts (E.resolveName name).1 E.ShareOpt)) ∧
      (HasOption s.mounts (E.resolveName name).1 E.ShareOpt = false →
        src = E.addShareColon (E.resolveName name).1)) ∧
    (GetOption s.mounts (E.resolveName name).1 E.ShareOpt = "" ∧
        GetOptionAsBool E s.mounts (E.resolveName name).1 E.CreateOpt = false →
      (n.share ≠ "" → n.share = (E.resolveName name).1 → src = E.addShareColon n.share) ∧
      (n.share ≠ "" → n.share ≠ (E.resolveName name).1 → src = fixSource E s.mounts n.share)) := by
  obtain ⟨r, m0, source0, -, hd, hsrc, -, -⟩ := Mount_mount_source E h n s name cmd src dest b hm
  rw [inlineSource_of_no_share E m0 _ source0 hno] at hsrc
  subst hsrc
  constructor
  · intro hp
    have h1 := defaultSource_named E n _ _ _ _ hd hp
    refine ⟨h1, fun hk => ?_, fun hk => ?_⟩
    · rw [h1]
      simp [fixSource, hk]
    · rw [h1]
      simp [fixSource, hk]
  · rintro ⟨h1, h2⟩
    exact (defaultSource_default E n _ _ _ _ hd h1 h2).2

/-- C12 amended, at a concrete input: a record with share + create policy is
mounted from its stored share, and a record without options from the default
share. -/
theorem Mount_named_source_witness :
    "host:/export" = fixSource sampleEnv (vol1Registry shareCreateOpts 0) "vol1" ∧
    "srv:/data" = fixSource sampleEnv (vol1Registry none 0) "srv:/data" :=
  ⟨((Mount_named_source sampleEnv tableHost sampleDriver ⟨vol1Registry shareCreateOpts 0, []⟩
      "vol1" "mount -t nfs4 host:/export /mnt/vol1" "host:/export" "/mnt/vol1" true
      (fun o ho => by simp [sampleEnv] at ho) (by decide)).1 (by decide)).1,
   ((Mount_named_source sampleEnv tableHost (NewNFSDriver "/mnt" 4 "" "srv:/data" "")
      ⟨vol1Registry none 0, []⟩
      "vol1" "mount -t nfs4 srv:/data /mnt/vol1" "srv:/data" "/mnt/vol1" true
      (fun o ho => by simp [sampleEnv] at ho) (by decide)).2 (by decide)).2
      (by decide) (by decide)⟩

/-- C19, at a concrete input: Mount and Unmount of `vol1` leave the record of
`other` as it was. -/
theorem Mount_Unmount_frame_witness :
    (Mount sampleEnv tableHost sampleDriver ⟨twoRegistry, []⟩ "vol1").2.mounts "other" =
      twoRegistry "other" ∧
    (Unmount sampleEnv tableHost sampleDriver ⟨twoRegistry, []⟩ "vol1").2.mounts "other" =
      twoRegistry "other" :=
  Mount_Unmount_frame sampleEnv tableHost sampleDriver ⟨twoRegistry, []⟩ "vol1" "other"
    (by decide)

/-- A second Mount while the mount is live returns the path of the first when
the record does not carry the share + create policy. -/
theorem Mount_again_plain (E : Env) (h : Host) (n : nfsDriver) (s : State)
    (name cmd src dest : String)
    (hm : (HostOp.mountCmd cmd src dest, true) ∈ opsSince s (Mount E h n s name).2)
    (hp : ¬ subdirPolicy E (Mount E h n s name).2.mounts (E.resolveName name).1)
    (hlive : h (Mount E h n s name).2.trace
      (.grepMounts (E.mountpoint n.root (E.resolveName name).1)) = true) :
    (Mount E h n (Mount E h n s name).2 name).1 = (Mount E h n s name).1 := by
  cases hr : s.mounts (E.resolveName name).1 with
  | none =>
    rw [Mount_of_none E h n s name hr, opsSince_self] at hm
    simp at hm
  | some r =>
    cases hg : h s.trace (.grepMounts (E.mountpoint n.root (E.resolveName name).1)) with
    | true =>
      have hl := (Mount_live E h n s name (HasMount_of_some hr) hg).2.1
      rw [opsSince_of_trace hl] at hm
      simp at hm
    | false =>
      rcases Mount_stale_cases E h n s name r hr hg with
        ⟨-, -, ho, -, -⟩ | ⟨cmd', src', -, -, ho, -, -⟩ | ⟨cmd', src', -, hres, -, hh, -⟩ |
        ⟨cmd', src', hp', -⟩ | ⟨cmd', src', -, hp', -⟩
      · rw [opsSince_of_trace ho] at hm
        simp at hm
      · rw [opsSince_of_trace ho] at hm
        simp at hm
      · rw [hres]
        exact (Mount_live E h n _ name hh hlive).1
      · exact absurd hp' hp
      · exact absurd hp' hp

/-- C16, at the failing input: `vol1` has a record with share + create policy
whose mountpoint is not mounted. The first Mount performs the host mount and
returns the sub-directory `/mnt/vol1/vol1`; the second Mount, made while the
mount is live, performs no host mount and returns `/mnt/vol1`. -/
theorem Mount_again_subdir :
    (Mount sampleEnv tableHost sampleDriver ⟨vol1Registry shareCreateOpts 0, []⟩ "vol1").1 =
      .ok "/mnt/vol1/vol1" ∧
    (HostOp.mountCmd "mount -t nfs4 host:/export /mnt/vol1" "host:/export" "/mnt/vol1", true) ∈
      (Mount sampleEnv tableHost sampleDriver
        ⟨vol1Registry shareCreateOpts 0, []⟩ "vol1").2.trace ∧
    (Mount sampleEnv tableHost sampleDriver
      (Mount sampleEnv tableHost sampleDriver
        ⟨vol1Registry shareCreateOpts 0, []⟩ "vol1").2 "vol1").1 = .ok "/mnt/vol1" ∧
    opsSince (Mount sampleEnv tableHost sampleDriver
        ⟨vol1Registry shareCreateOpts 0, []⟩ "vol1").2
      (Mount sampleEnv tableHost sampleDriver
        (Mount sampleEnv tableHost sampleDriver
          ⟨vol1Registry shareCreateOpts 0, []⟩ "vol1").2 "vol1").2 =
      [(.grepMounts "/mnt/vol1", true)] := by
  decide

/-- Lines 54-83 leave `source` empty when the record has neither a share option
nor an active create option, the driver has no default share and the request
has no inline share: the host mount then gets the empty string as source. -/
theorem Mount_default_empty_source (E : Env) (h : Host) (n : nfsDriver) (s : State)
    (name cmd src dest : String) (b : Bool)
    (hno : ∀ o, (E.resolveName name).2 = some o → o E.ShareOpt = none)
    (hm : (HostOp.mountCmd cmd src dest, b) ∈ opsSince s (Mount E h n s name).2)
    (h1 : GetOption s.mounts (E.resolveName name).1 E.ShareOpt = "")
    (h2 : GetOptionAsBool E s.mounts (E.resolveName name).1 E.CreateOpt = false)
    (h3 : n.share = "") : src = "" := by
  obtain ⟨r, m0, source0, -, hd, hsrc, -, -⟩ := Mount_mount_source E h n s name cmd src dest b hm
  rw [inlineSource_of_no_share E m0 _ source0 hno] at hsrc
  rw [hsrc]
  exact (defaultSource_default E n _ _ _ _ hd h1 h2).1 h3

/-- C18, at the failing input: `vol1` has a record without options, the driver
has no default share and the request has no inline options. The host mount is
invoked with the empty string as source. -/
theorem Mount_empty_source :
    HasOption (vol1Registry none 0) "vol1" sampleEnv.ShareOpt = false ∧
    GetOptionAsBool sampleEnv (vol1Registry none 0) "vol1" sampleEnv.CreateOpt = false ∧
    plainDriver.share = "" ∧
    (Mount sampleEnv tableHost plainDriver ⟨vol1Registry none 0, []⟩ "vol1").2.trace =
      [(.grepMounts "/mnt/vol1", false), (.createDest "/mnt/vol1", true),
       (.mountCmd "mount -t nfs4  /mnt/vol1" "" "/mnt/vol1", true)] ∧
    (Mount sampleEnv tableHost plainDriver ⟨vol1Registry none 0, []⟩ "vol1").1 =
      .ok "/mnt/vol1" := by
  decide

/-! ## Inline share lookup, option string and directory removal -/

/-- C11, at the failing input: the request `vol1?share=other` carries the inline
share `other`, whose normalisation is `other`; the registry also holds a record
named `other` whose share option is `host:/export`. Line 81 hands the inline
share to `fixSource`, which looks it up as a volume name, and the host mount is
invoked with source `host:/export`. -/
theorem Mount_inline_share_lookup :
    (inlineEnv.resolveName "vol1?share=other").1 = "vol1" ∧
    (inlineEnv.resolveName "vol1?share=other").2.lookup inlineEnv.ShareOpt = some "other" ∧
    inlineEnv.addShareColon "other" = "other" ∧
    GetOption twoRegistry "other" inlineEnv.ShareOpt = "host:/export" ∧
    (Mount inlineEnv tableHost plainDriver ⟨twoRegistry, []⟩ "vol1?share=other").2.trace =
      [(.grepMounts "/mnt/vol1", false), (.createDest "/mnt/vol1", true),
       (.mountCmd "mount -t nfs4 host:/export /mnt/vol1" "host:/export" "/mnt/vol1", true)] := by
  decide

theorem recordOrDefault_resolved (root : String) (version : Int)
    (nfsopts share create : String) (m : Registry) (name : String) :
    resolvedOpts (NewNFSDriver root version nfsopts share create) m name =
      recordOrDefault m name nfsopts := by
  unfold recordOrDefault
  cases hk : HasOption m name NfsOptions with
  | true => simpa using resolvedOpts_of_key _ m name hk
  | false =>
    rw [resolvedOpts_of_no_key _ m name hk, NewNFSDriver_nfsopts]
    simp

/-- C13 as stated fails: for NFSv3, a record whose option map has the key
`nfsopts` with the empty value is not mounted with its own value as `-o`
string; `mountVolume` hands `port=2049,nolock,proto=tcp`. -/
theorem mountVolume_option_string_counterexample :
    ¬ ∀ (E : Env) (n : nfsDriver) (m : Registry) (name source dest : String),
      HasOption m name NfsOptions = true →
      mountVolumeCmd E n m name source dest 3 =
        (if E.debug then "mount -v" else "mount") ++ " -t nfs -o " ++
          GetOption m name NfsOptions ++ " " ++ source ++ " " ++ dest := by
  intro hall
  have hc := hall sampleEnv (NewNFSDriver "/mnt" 3 "ro" "" "")
    (vol1Registry (nfsoptsOnly "") 1) "vol1" "host:/export" "/mnt/vol1" (by decide)
  revert hc
  decide

/-- C13, amended: let O be the record's own `nfsopts` value when the record's
option map has that key, and the driver-wide default given to `NewNFSDriver`
otherwise. The command `mountVolume` executes carries O as its `-o` string
whenever O is non-empty; when O is empty, version 3 carries
`port=2049,nolock,proto=tcp` and every other version carries no `-o` at all. -/
theorem mountVolume_option_string (E : Env) (h : Host) (root : String) (version : Int)
    (nfsopts share create : String) (s : State) (name source dest : String) (ver : Int) :
    mountVolume E h (NewNFSDriver root version nfsopts share create) s name source dest ver =
      hostCall h s (.mountCmd
        (if ver = 3 then
          (if E.debug then "mount -v" else "mount") ++ " -t nfs -o " ++
            (if recordOrDefault s.mounts name nfsopts = "" then "port=2049,nolock,proto=tcp"
             else recordOrDefault s.mounts name nfsopts) ++ " " ++ source ++ " " ++ dest
        else if recordOrDefault s.mounts name nfsopts = "" then
          (if E.debug then "mount -v" else "mount") ++ " -t nfs4 " ++ source ++ " " ++ dest
        else
          (if E.debug then "mount -v" else "mount") ++ " -t nfs4 -o " ++
            recordOrDefault s.mounts name nfsopts ++ " " ++ source ++ " " ++ dest)
        source dest) := by
  unfold mountVolume
  rw [mountVolumeCmd_resolved, recordOrDefault_resolved]
  by_cases hv : ver = 3
  · simp only [hv, if_true, DefaultNfsV3]
    cases E.debug <;> rfl
  · by_cases ho : recordOrDefault s.mounts name nfsopts = ""
    · simp only [hv, ho, if_false, if_true, ne_eq, not_true_eq_false]
      cases E.debug <;> rfl
    · simp only [hv, ho, if_false, ne_eq, not_false_eq_true, if_true]
      cases E.debug <;> rfl

/-- C13 amended, at concrete inputs: with driver default `ro`, a record with
`nfsopts` set to `rw` is mounted with `-o rw`, and a record without options
with `-o ro`. -/
theorem mountVolume_option_string_witness :
    mountVolume sampleEnv liveHost (NewNFSDriver "/mnt" 4 "ro" "" "")
        ⟨vol1Registry (nfsoptsOnly "rw") 1, []⟩ "vol1" "host:/export" "/mnt/vol1" 4 =
      hostCall liveHost ⟨vol1Registry (nfsoptsOnly "rw") 1, []⟩
        (.mountCmd "mount -t nfs4 -o rw host:/export /mnt/vol1" "host:/export" "/mnt/vol1") ∧
    mountVolume sampleEnv liveHost (NewNFSDriver "/mnt" 4 "ro" "" "")
        ⟨vol1Registry none 1, []⟩ "vol1" "host:/export" "/mnt/vol1" 4 =
      hostCall liveHost ⟨vol1Registry none 1, []⟩
        (.mountCmd "mount -t nfs4 -o ro host:/export /mnt/vol1" "host:/export" "/mnt/vol1") :=
  ⟨mountVolume_option_string sampleEnv liveHost "/mnt" 4 "ro" "" ""
      ⟨vol1Registry (nfsoptsOnly "rw") 1, []⟩ "vol1" "host:/export" "/mnt/vol1" 4,
   mountVolume_option_string sampleEnv liveHost "/mnt" 4 "ro" "" ""
      ⟨vol1Registry none 1, []⟩ "vol1" "host:/export" "/mnt/vol1" 4⟩

/-- C15, at the failing input: the mountpoint of `vol1` holds only the file
`.hidden`, so it is not empty, and the host unmount succeeds. The listing of
line 161 finds nothing, Unmount takes the directory for empty and runs
`os.RemoveAll` on it, and returns success. -/
theorem Unmount_removes_hidden :
    [".hidden"] ≠ ([] : List String) ∧
    lsGrepFinds [".hidden"] = false ∧
    (Unmount sampleEnv (dirHost [".hidden"]) sampleDriver
      ⟨vol1Registry none 1, []⟩ "vol1").1 = .ok () ∧
    (Unmount sampleEnv (dirHost [".hidden"]) sampleDriver
      ⟨vol1Registry none 1, []⟩ "vol1").2.trace =
      [(.umount "/mnt/vol1", true), (.lsGrep "/mnt/vol1", false),
       (.removeAll "/mnt/vol1", true)] := by
  decide

end Netshare
